import Mathlib

/-!
Verification development for the candidate-generation and histogram-based
pose-scoring engine of the panoramic-localization repository
(`src/utils.py`).  The Python source is shallowly embedded: machine floats
become real numbers `ℝ` (score/coordinate arithmetic that is purely
order-theoretic becomes `ℚ` so that witnesses can be evaluated), tensors
become lists or `Fin n`-indexed functions, and Python-level exceptions
become `Except` values.  Each embedded definition keeps the name and the
structure of the source function it models.
-/

namespace PanoLoc

open Real List

/-! ## Basic embedding of float primitives -/

/-- The epsilon guard `1e-6` that the source adds to `atan2` denominators
(`cloud2idx`, src/utils.py lines 38, 41, 55, 58). -/
noncomputable def eps : ℝ := 1e-6

/-- Two-argument arctangent with the C/PyTorch convention:
`atan2 y x` is the angle of the point `(x, y)` in `(-π, π]`, with
`atan2 0 x = π` for `x < 0` (the sign of `y = +0` selects the upper branch). -/
noncomputable def atan2 (y x : ℝ) : ℝ :=
  if 0 < x then Real.arctan (y / x)
  else if x < 0 then
    (if 0 ≤ y then Real.arctan (y / x) + Real.pi else Real.arctan (y / x) - Real.pi)
  else if 0 < y then Real.pi / 2
  else if y < 0 then -(Real.pi / 2)
  else 0

/-- Truncation toward zero, the semantics of `.long()` on a float tensor. -/
noncomputable def pyTrunc (x : ℝ) : ℤ := if 0 ≤ x then ⌊x⌋ else ⌈x⌉

/-- `torch.norm` of a 3-vector. -/
noncomputable def dist3 (p : ℝ × ℝ × ℝ) : ℝ :=
  Real.sqrt (p.1 ^ 2 + p.2.1 ^ 2 + p.2.2 ^ 2)

/-! ## Spherical projection (src/utils.py: `cloud2idx`, `inv_cloud2idx`) -/

/-- `cloud2idx` (src/utils.py lines 23-68, non-batched branch): maps a 3D
point to a normalized equirectangular image coordinate in `[-1,1] × [-1,1]`.
`theta = atan2(‖xy‖, z + 1e-6)`, `phi = atan2(y, x + 1e-6) + π`,
`coord = 2 * (1 - phi/2π, theta/π) - 1`. -/
noncomputable def cloud2idx (p : ℝ × ℝ × ℝ) : ℝ × ℝ :=
  let theta := atan2 (Real.sqrt (p.1 ^ 2 + p.2.1 ^ 2)) (p.2.2 + eps)
  let phi := atan2 p.2.1 (p.1 + eps) + Real.pi
  (2 * (1 - phi / (2 * Real.pi)) - 1, 2 * (theta / Real.pi) - 1)

/-- `inv_cloud2idx` (src/utils.py lines 71-84): maps a normalized image
coordinate back to a point on the unit sphere.
`phi = (1 - (c₁+1)/2)·2π - π`, `theta = π·(c₂+1)/2`,
`xyz = (sin θ cos φ, sin θ sin φ, cos θ)`. -/
noncomputable def inv_cloud2idx (c : ℝ × ℝ) : ℝ × ℝ × ℝ :=
  let phi := (1 - (c.1 + 1) / 2) * (2 * Real.pi) - Real.pi
  let theta := Real.pi * ((c.2 + 1) / 2)
  (Real.sin theta * Real.cos phi, Real.sin theta * Real.sin phi, Real.cos theta)

/-! ## Adaptive depth computation of `generate_octree` (src/utils.py lines 676-694) -/

/-- `torch.min` over a nonempty list (one coordinate column of the cloud);
`0` for the empty list. -/
noncomputable def listMin : List ℝ → ℝ
  | [] => 0
  | h :: t => t.foldl min h

/-- `torch.max` over a nonempty list. -/
noncomputable def listMax : List ℝ → ℝ
  | [] => 0
  | h :: t => t.foldl max h

/-- The per-axis adaptive maximum depths of `generate_octree` before the
minimum-resolution bump:
`xyz_med = (min + max)/2`, `xyz_length = |max - med|`,
`adaptive = sqrt(length) / min(sqrt(length))`,
`adaptive_nmax = ceil(nmin * adaptive - 0.2)` (lines 678-687). -/
noncomputable def octree_pre_depths (xyz : List (ℝ × ℝ × ℝ)) (nmin : ℕ) : ℤ × ℤ × ℤ :=
  let xs := xyz.map (fun p => p.1)
  let ys := xyz.map (fun p => p.2.1)
  let zs := xyz.map (fun p => p.2.2)
  let lx := |listMax xs - (listMin xs + listMax xs) / 2|
  let ly := |listMax ys - (listMin ys + listMax ys) / 2|
  let lz := |listMax zs - (listMin zs + listMax zs) / 2|
  let ax := Real.sqrt lx
  let ay := Real.sqrt ly
  let az := Real.sqrt lz
  let m := min ax (min ay az)
  (⌈(nmin : ℝ) * (ax / m) - 0.2⌉, ⌈(nmin : ℝ) * (ay / m) - 0.2⌉, ⌈(nmin : ℝ) * (az / m) - 0.2⌉)

/-- The final per-axis depths of `generate_octree`: if the total leaf
count `2^Σdepth` is below 256, every axis depth is incremented
(lines 689-690). -/
noncomputable def generate_octree_depths (xyz : List (ℝ × ℝ × ℝ)) (nmin : ℕ) : ℤ × ℤ × ℤ :=
  let p := octree_pre_depths xyz nmin
  if (2 : ℝ) ^ (p.1 + p.2.1 + p.2.2) < 256 then (p.1 + 1, p.2.1 + 1, p.2.2 + 1) else p

/-- The full x-extent of the bounding box, the claim's `extent_x`. -/
noncomputable def extentX (xyz : List (ℝ × ℝ × ℝ)) : ℝ :=
  listMax (xyz.map fun p => p.1) - listMin (xyz.map fun p => p.1)

/-- The full y-extent of the bounding box. -/
noncomputable def extentY (xyz : List (ℝ × ℝ × ℝ)) : ℝ :=
  listMax (xyz.map fun p => p.2.1) - listMin (xyz.map fun p => p.2.1)

/-- The full z-extent of the bounding box. -/
noncomputable def extentZ (xyz : List (ℝ × ℝ × ℝ)) : ℝ :=
  listMax (xyz.map fun p => p.2.2) - listMin (xyz.map fun p => p.2.2)

/-- The minimum extent over the three axes, the claim's `min_extent`. -/
noncomputable def minExtent (xyz : List (ℝ × ℝ × ℝ)) : ℝ :=
  min (extentX xyz) (min (extentY xyz) (extentZ xyz))

/-! ## Argsort and the top-N selection tails of the pose-search functions

`torch.argsort` sorts ascending and (as the spec assumes) breaks ties
stably: the index with the lower position wins.  A stable sort of the
index list `[0, ..., n-1]` by value models it; `List.insertionSort` is
stable. -/

/-- `torch.argsort` on a 1-D tensor of scores: index list sorted by
ascending value, ties broken by lower index. -/
def argsort (l : List ℚ) : List ℕ :=
  (List.range l.length).insertionSort (fun i j => l.getD i 0 ≤ l.getD j 0)

/-- Python slice `l[-n:]`; note `l[-0:]` is all of `l`, and a negative
start index beyond the length is clamped to `0`. -/
def sliceLast {α : Type} (n : ℕ) (l : List α) : List α :=
  if n = 0 then l else l.drop (l.length - n)

/-- Selection tail of `histogram_pose_search` (src/utils.py lines
1500-1503): `min_inds = hist_intersect.flatten().argsort()[-num_input:]`,
with no flip, so indices come out in ascending-score order. -/
def histogram_pose_search_inds (hist : List ℚ) (numInput : ℕ) : List ℕ :=
  sliceLast numInput (argsort hist)

/-- The `(translation-index, rotation-index)` pairs returned by
`histogram_pose_search`: `trans[min_inds // len(rot)]`,
`rot[min_inds % len(rot)]` with `R = len(rot)`. -/
def histogram_pose_search_select (hist : List ℚ) (numInput R : ℕ) : List (ℕ × ℕ) :=
  (histogram_pose_search_inds hist numInput).map (fun idx => (idx / R, idx % R))

/-- The scores of the returned candidates, in output order. -/
def histogram_pose_search_scores (hist : List ℚ) (numInput : ℕ) : List ℚ :=
  (histogram_pose_search_inds hist numInput).map (fun idx => hist.getD idx 0)

/-- Selection tail of `sampling_loss_pose_search` (src/utils.py lines
1605-1606): `num_input = min(num_input, len(loss_table.flatten()))` then
`argsort()[:num_input]` (ascending loss). -/
def sampling_loss_pose_search_inds (losses : List ℚ) (numInput : ℕ) : List ℕ :=
  (argsort losses).take (min numInput losses.length)

/-- Selection tail of `direct_histogram_pose_search` (src/utils.py lines
1688-1689): `argsort()[-num_input:]` followed by `torch.flip`, so indices
come out in descending-score order. -/
def direct_histogram_pose_search_inds (hist : List ℚ) (numInput : ℕ) : List ℕ :=
  (sliceLast numInput (argsort hist)).reverse

/-! ## Score accumulation of `make_score_map_3d` (src/utils.py lines 1367-1380)

Per point, the loop over (translation, rotation, query image) produces a
sequence of back-projected intersection values `update`; the accumulator
update is `update[update == 0] = score_cloud[update == 0]` followed by
`score_cloud = score_cloud * (n-1)/n + update * 1/n` with `n` the running
evaluation count. -/

/-- One accumulator step of `make_score_map_3d` for a single point: `old`
is the current score, `upd` the back-projected intersection value, `n` the
running count (`total_count` after increment). -/
def score_map_step (old upd : ℚ) (n : ℕ) : ℚ :=
  let u := if upd = 0 then old else upd
  old * ((n : ℚ) - 1) / n + u * 1 / n

/-- The accumulator after a sequence of per-point update values, applied in
query-image iteration order (the source's nested translation, rotation,
query-image loop enumerated in order). -/
def score_map_run (updates : List ℚ) : ℚ :=
  (updates.foldl (fun p u => (score_map_step p.1 u (p.2 + 1), p.2 + 1)) ((0 : ℚ), (0 : ℕ))).1

/-- Modelled from the spec: the update step as the claim words it, with
`update` being the raw back-projected intersection value (no zero
replacement). -/
def score_map_step_claimed (old upd : ℚ) (n : ℕ) : ℚ :=
  old * ((n : ℚ) - 1) / n + upd * 1 / n

/-- Modelled from the spec: running the claimed update formula over the
same update sequence. -/
def score_map_run_claimed (updates : List ℚ) : ℚ :=
  (updates.foldl (fun p u => (score_map_step_claimed p.1 u (p.2 + 1), p.2 + 1)) ((0 : ℚ), (0 : ℕ))).1

/-! ## `refine_sampling_coords` (src/utils.py lines 1508-1563, non-batched)

The module guard is `try: from torch_scatter import scatter_min except
ImportError: pass` (lines 6-9): when the import fails the name
`scatter_min` is simply unbound, and calling it raises `NameError`.  The
call site wraps `scatter_min` in `try ... except RuntimeError`, which does
not catch `NameError`.  `ScatterState` models the three relevant runtime
situations. -/

inductive ScatterState : Type
  | available : ScatterState
  | runtimeErr : ScatterState
  | missing : ScatterState

inductive PyErr : Type
  | nameError : PyErr
  | itemError : PyErr
deriving DecidableEq

/-- Truncation toward zero on rationals (`.long()`). -/
def pyTruncQ (x : ℚ) : ℤ := if 0 ≤ x then ⌊x⌋ else ⌈x⌉

/-- `clamp(min=0, max=2)` on rationals. -/
def clampQ (x lo hi : ℚ) : ℚ := max lo (min x hi)

/-- Pixel-key generation of `refine_sampling_coords` (line 1550):
`((y + 1).clamp(0, 2) / 2 * H).long() * W + (((x + 1).clamp(0, 2) / 2) * W).long()`. -/
def coord_key (H W : ℕ) (xy : ℚ × ℚ) : ℤ :=
  pyTruncQ (clampQ (xy.2 + 1) 0 2 / 2 * H) * W + pyTruncQ (clampQ (xy.1 + 1) 0 2 / 2 * W)

/-- `torch_scatter.scatter_min` argmin output (external collaborator,
modelled from its documented semantics): for each key value `k` in
`0 .. max(keys)`, the index of the minimal `rho` among positions carrying
that key; slots with no entry are filled with `rho.length`. -/
def scatter_min_argmin (rho : List ℚ) (keys : List ℤ) : List ℕ :=
  let m := (keys.map Int.toNat).foldl max 0
  (List.range (m + 1)).map fun k =>
    match (List.range rho.length).filter (fun i => decide (keys.getD i 0 = (k : ℤ))) with
    | [] => rho.length
    | i0 :: rest => rest.foldl (fun best i => if rho.getD i 0 < rho.getD best 0 then i else best) i0

/-- `refine_sampling_coords` (non-batched branch, lines 1546-1563, without
`return_valid_mask`): compute pixel keys, run `scatter_min`, keep indices
below the point count.  When `torch_scatter` is missing, the `scatter_min`
call raises `NameError`, which the `except RuntimeError` clause does not
catch; when `scatter_min` itself raises `RuntimeError`, the fallback is
`argmin = torch.arange(len(img_idx))` (all indices, no occlusion test). -/
def refine_sampling_coords (st : ScatterState) (img_idx : List (ℚ × ℚ)) (rho : List ℚ)
    (H W : ℕ) : Except PyErr (List ℕ) :=
  let keys := img_idx.map (coord_key H W)
  match st with
  | .missing => .error .nameError
  | .runtimeErr => .ok ((List.range img_idx.length).filter (fun i => decide (i < img_idx.length)))
  | .available => .ok ((scatter_min_argmin rho keys).filter (fun i => decide (i < img_idx.length)))

/-! ## Panorama synthesis `make_pano` (src/utils.py lines 169-255)

The image is a total function from integer pixel coordinates to RGB
triples; `index_put_(..., accumulate=False)` with duplicate indices writes
in order, so each pass is a left fold of pointwise updates over the
distance-sorted point list.  The source sorts ascending by distance and
flips, painting farthest-first; the primary-pixel pass runs last. -/

/-- `torch.argsort` over the indices of an `n`-point cloud keyed by a real
value (ascending, stable). -/
noncomputable def argsortR {n : ℕ} (key : Fin n → ℝ) : List (Fin n) :=
  (List.finRange n).insertionSort (fun i j => key i ≤ key j)

/-- `mod_idx` of `make_pano` (lines 191-193): argsort by distance from the
origin, flipped to descending order. -/
noncomputable def modIdx {n : ℕ} (xyz : Fin n → ℝ × ℝ × ℝ) : List (Fin n) :=
  (argsortR fun i => dist3 (xyz i)).reverse

/-- The primary pixel of a point (lines 197-204): scale the normalized
coordinate to the resolution, flip to `(i, j)` = (row, column) order, and
truncate with `.long()`. -/
noncomputable def pixelOf (res : ℕ × ℕ) (p : ℝ × ℝ × ℝ) : ℤ × ℤ :=
  (pyTrunc (((cloud2idx p).2 + 1) / 2 * ((res.1 : ℝ) - 1)),
   pyTrunc (((cloud2idx p).1 + 1) / 2 * ((res.2 : ℝ) - 1)))

/-- The clamped neighbor pixel at row offset `di` and column offset `dj`
(lines 215-231): `+1` offsets clamp above at `size - 1`, `-1` offsets
clamp below at `0`. -/
noncomputable def nbrPix (res : ℕ × ℕ) (p : ℝ × ℝ × ℝ) (di dj : ℤ) : ℤ × ℤ :=
  (if di = 1 then min ((pixelOf res p).1 + 1) ((res.1 : ℤ) - 1)
   else if di = -1 then max ((pixelOf res p).1 - 1) 0
   else (pixelOf res p).1,
   if dj = 1 then min ((pixelOf res p).2 + 1) ((res.2 : ℤ) - 1)
   else if dj = -1 then max ((pixelOf res p).2 - 1) 0
   else (pixelOf res p).2)

/-- One `index_put_` pass: write every point's color at its target pixel,
in list order (last write wins). -/
def putAll {n : ℕ} (pix : Fin n → ℤ × ℤ) (col : Fin n → ℝ × ℝ × ℝ)
    (ord : List (Fin n)) (img : ℤ × ℤ → ℝ × ℝ × ℝ) : ℤ × ℤ → ℝ × ℝ × ℝ :=
  ord.foldl (fun im k => Function.update im (pix k) (col k)) img

/-- `make_pano` (lines 188-243): paint the 8-neighborhood passes in source
order (`coord_idx8` down to `coord_idx1`), then the primary pass, over the
farthest-first point order; scale by 255 at the end. -/
noncomputable def make_pano_img {n : ℕ} (xyz rgb : Fin n → ℝ × ℝ × ℝ) (res : ℕ × ℕ)
    (default_white : Bool) : ℤ × ℤ → ℝ × ℝ × ℝ :=
  let ord := modIdx xyz
  let bg : ℤ × ℤ → ℝ × ℝ × ℝ := fun _ => if default_white then (1, 1, 1) else (0, 0, 0)
  let i8 := putAll (fun k => nbrPix res (xyz k) 0 (-1)) rgb ord bg
  let i7 := putAll (fun k => nbrPix res (xyz k) 0 1) rgb ord i8
  let i6 := putAll (fun k => nbrPix res (xyz k) (-1) (-1)) rgb ord i7
  let i5 := putAll (fun k => nbrPix res (xyz k) (-1) 0) rgb ord i6
  let i4 := putAll (fun k => nbrPix res (xyz k) (-1) 1) rgb ord i5
  let i3 := putAll (fun k => nbrPix res (xyz k) 1 (-1)) rgb ord i4
  let i2 := putAll (fun k => nbrPix res (xyz k) 1 0) rgb ord i3
  let i1 := putAll (fun k => nbrPix res (xyz k) 1 1) rgb ord i2
  let ip := putAll (fun k => pixelOf res (xyz k)) rgb ord i1
  fun q => (255 * (ip q).1, 255 * (ip q).2.1, 255 * (ip q).2.2)

/-- `torch.argsort` on a list of natural-number values. -/
def argsortN (l : List ℕ) : List ℕ :=
  (List.range l.length).insertionSort (fun i j => l.getD i 0 ≤ l.getD j 0)

/-- The `return_coord` output of `make_pano` (lines 247-250):
`save_coord_idx[inv_mod_idx]`, the per-point integer pixel coordinates of
the distance-sorted points, re-indexed by `inv_mod_idx = argsort(mod_idx)`
to restore original point order. -/
noncomputable def make_pano_coords {n : ℕ} (xyz : Fin n → ℝ × ℝ × ℝ) (res : ℕ × ℕ) :
    List (ℤ × ℤ) :=
  (argsortN ((modIdx xyz).map Fin.val)).map fun a =>
    ((modIdx xyz).map fun k => pixelOf res (xyz k)).getD a (0, 0)

/-- The `return_norm_coord` output of `make_pano` (lines 251-253):
`orig_coord_idx[inv_mod_idx]`, the normalized float coordinates in
original point order. -/
noncomputable def make_pano_norm_coords {n : ℕ} (xyz : Fin n → ℝ × ℝ × ℝ) (_res : ℕ × ℕ) :
    List (ℝ × ℝ) :=
  (argsortN ((modIdx xyz).map Fin.val)).map fun a =>
    ((modIdx xyz).map fun k => cloud2idx (xyz k)).getD a (0, 0)

/-! ## Rotation candidate generation
(src/utils.py: `rot_from_ypr` lines 548-585, `create_coordinate` lines
1034-1047, `compute_sampling_grid` lines 1059-1099,
`generate_rot_points` lines 371-414) -/

/-- `RX` of `rot_from_ypr`: rotation about x by `roll`. -/
noncomputable def rotRX (roll : ℝ) : Matrix (Fin 3) (Fin 3) ℝ :=
  Matrix.of ![![1, 0, 0],
              ![0, Real.cos roll, -Real.sin roll],
              ![0, Real.sin roll, Real.cos roll]]

/-- `RY` of `rot_from_ypr`: rotation about y by `pitch`. -/
noncomputable def rotRY (pitch : ℝ) : Matrix (Fin 3) (Fin 3) ℝ :=
  Matrix.of ![![Real.cos pitch, 0, Real.sin pitch],
              ![0, 1, 0],
              ![-Real.sin pitch, 0, Real.cos pitch]]

/-- `RZ` of `rot_from_ypr`: rotation about z by `yaw`. -/
noncomputable def rotRZ (yaw : ℝ) : Matrix (Fin 3) (Fin 3) ℝ :=
  Matrix.of ![![Real.cos yaw, -Real.sin yaw, 0],
              ![Real.sin yaw, Real.cos yaw, 0],
              ![0, 0, 1]]

/-- `rot_from_ypr` (single-rotation branch): `R = RZ(yaw)·RY(pitch)·RX(roll)`. -/
noncomputable def rot_from_ypr (ypr : ℝ × ℝ × ℝ) : Matrix (Fin 3) (Fin 3) ℝ :=
  rotRZ ypr.1 * rotRY ypr.2.1 * rotRX ypr.2.2

/-- `create_coordinate h_out w_out`: the (H, W) grid of
`(theta, phi) = (π - j·2π/W, i·π/H)` in row-major order. -/
noncomputable def create_coordinate (H W : ℕ) : List (ℝ × ℝ) :=
  (List.range H).flatMap fun i => (List.range W).map fun j =>
    (Real.pi - (j : ℝ) * (2 * Real.pi) / W, (i : ℝ) * Real.pi / H)

/-- `compute_sampling_grid ypr num_split_h num_split_w inverse`: apply the
half-pixel center offsets, build the unit-sphere ray grid, rotate by `R`
(the transpose of `rot_from_ypr` unless `inverse`), and reproject through
`cloud2idx`. -/
noncomputable def compute_sampling_grid (ypr : ℝ × ℝ × ℝ) (numSplitH numSplitW : ℕ)
    (inverse : Bool) : List (ℝ × ℝ) :=
  let R := if inverse then rot_from_ypr ypr else (rot_from_ypr ypr).transpose
  (create_coordinate numSplitH numSplitW).map fun a =>
    let th := a.1 - Real.pi / numSplitW
    let ph := a.2 + Real.pi / (numSplitH * 2)
    let A : Fin 3 → ℝ := ![Real.sin ph * Real.cos th, Real.sin ph * Real.sin th, Real.cos ph]
    let B := R.mulVec A
    cloud2idx (B 0, B 1, B 2)

/-- The dedup key of a rotation candidate:
`str(np.around(compute_sampling_grid(ypr, num_yaw, num_pitch), 3))` is
modelled as the grid with every entry scaled by 1000 and rounded to an
integer — an injective encoding of the array of rounded values, so two
keys are equal exactly when the rounded grids are equal.  (`np.around`
rounds half to even; exact half-thousandth trigonometric values do not
occur at the inputs considered, and the claims depend only on key
equality.) -/
noncomputable def grid_key (ypr : ℝ × ℝ × ℝ) (numSplitH numSplitW : ℕ) : List (ℤ × ℤ) :=
  (compute_sampling_grid ypr numSplitH numSplitW false).map fun c =>
    (round (c.1 * 1000), round (c.2 * 1000))

/-- Configuration dictionary `init_dict` of `generate_rot_points`. -/
structure RotInit where
  yaw_only : Bool
  num_yaw : ℕ
  num_pitch : ℕ
  num_roll : ℕ
  min_yaw : ℝ
  max_yaw : ℝ
  min_pitch : ℝ
  max_pitch : ℝ
  min_roll : ℝ
  max_roll : ℝ

/-- The 3-DoF meshgrid of rotation candidates (lines 391-399):
yaw index outermost, roll index innermost, each angle
`idx/num · (max - min) + min`. -/
noncomputable def rot_candidates (d : RotInit) : List (ℝ × ℝ × ℝ) :=
  (List.range d.num_yaw).flatMap fun i =>
    (List.range d.num_pitch).flatMap fun j =>
      (List.range d.num_roll).map fun k =>
        ((i : ℝ) / d.num_yaw * (d.max_yaw - d.min_yaw) + d.min_yaw,
         (j : ℝ) / d.num_pitch * (d.max_pitch - d.min_pitch) + d.min_pitch,
         (k : ℝ) / d.num_roll * (d.max_roll - d.min_roll) + d.min_roll)

/-- A total boolean comparator on dedup keys, modelling the deterministic
ascending order of python `sorted` on the key strings.  (Which total order
is used does not affect any claim; only determinism and the selected set
matter.) -/
def keyLe : List (ℤ × ℤ) → List (ℤ × ℤ) → Bool
  | [], _ => true
  | _ :: _, [] => false
  | a :: as, b :: bs =>
      if a = b then keyLe as bs
      else decide (a.1 < b.1) || (decide (a.1 = b.1) && decide (a.2 < b.2))

/-- `sorted(set(rot_list))` (line 407): the distinct keys, sorted
deterministically. -/
def dedup_sorted_keys (ks : List (List (ℤ × ℤ))) : List (List (ℤ × ℤ)) :=
  (ks.dedup).insertionSort (fun a b => keyLe a b = true)

/-- Python `list.index`: position of the first occurrence. -/
def listIndexOf {α : Type} [DecidableEq α] (x : α) : List α → ℕ
  | [] => 0
  | a :: as => if a = x then 0 else listIndexOf x as + 1

/-- The deduplicated rotation array (lines 401-408):
`valid_rot_idx = [rot_list.index(m) for m in sorted(set(rot_list))]` and
`rot_arr = stack([rot_arr[idx] for idx in valid_rot_idx])`. -/
noncomputable def dedupedRots (d : RotInit) : List (ℝ × ℝ × ℝ) :=
  let cands := rot_candidates d
  let keys := cands.map fun ypr => grid_key ypr d.num_yaw d.num_pitch
  ((dedup_sorted_keys keys).map fun k => listIndexOf k keys).map fun idx =>
    cands.getD idx (0, 0, 0)

/-- The row swap `rot_arr[[0, zero_idx]] = rot_arr[[zero_idx, 0]]`. -/
def swapList {α : Type} [Inhabited α] (l : List α) (i j : ℕ) : List α :=
  (l.set i (l.getD j default)).set j (l.getD i default)

/-- `generate_rot_points` (lines 371-414).  In the 3-DoF branch,
`zero_idx = torch.where(rot_arr.sum(-1) == 0.)[0].item()` raises unless
exactly one deduplicated rotation has components summing to zero
(`.item()` fails on an empty or multi-element tensor); the embedding
returns `Except.error .itemError` in those cases. -/
noncomputable def generate_rot_points (d : RotInit) : Except PyErr (List (ℝ × ℝ × ℝ)) :=
  if d.yaw_only then
    .ok ((List.range d.num_yaw).map fun i => ((i : ℝ) * (2 * Real.pi) / d.num_yaw, 0, 0))
  else
    match (List.range (dedupedRots d).length).filter (fun i =>
        decide (((dedupedRots d).getD i (0, 0, 0)).1 +
          ((dedupedRots d).getD i (0, 0, 0)).2.1 +
          ((dedupedRots d).getD i (0, 0, 0)).2.2 = 0)) with
    | [z] => .ok (swapList (dedupedRots d) 0 z)
    | _ => .error .itemError

end PanoLoc

namespace PanoLoc

/-! ## Helper lemmas about `atan2` -/

theorem atan2_of_pos_right {y x : ℝ} (hx : 0 < x) : atan2 y x = Real.arctan (y / x) := by
  simp [atan2, hx]

theorem atan2_zero_of_neg {x : ℝ} (hx : x < 0) : atan2 0 x = Real.pi := by
  have h1 : ¬ 0 < x := not_lt.mpr hx.le
  simp [atan2, h1, hx]

theorem atan2_of_pos_left {y x : ℝ} (hy : 0 < y) :
    atan2 y x = Real.pi / 2 - Real.arctan (x / y) := by
  rcases lt_trichotomy x 0 with hx | hx | hx
  · have h1 : ¬ 0 < x := not_lt.mpr hx.le
    have hxy : x / y < 0 := div_neg_of_neg_of_pos hx hy
    have h2 : Real.arctan (x / y)⁻¹ = -(Real.pi / 2) - Real.arctan (x / y) :=
      Real.arctan_inv_of_neg hxy
    have h3 : (x / y)⁻¹ = y / x := by
      rw [inv_div]
    rw [h3] at h2
    simp only [atan2, h1, hx, if_true, if_false, hy.le, if_pos]
    rw [h2]; ring
  · subst hx
    simp [atan2, hy, lt_irrefl]
  · have hxy : 0 < x / y := div_pos hx hy
    have h2 : Real.arctan (x / y)⁻¹ = Real.pi / 2 - Real.arctan (x / y) :=
      Real.arctan_inv_of_pos hxy
    have h3 : (x / y)⁻¹ = y / x := by
      rw [inv_div]
    rw [h3] at h2
    simp only [atan2, hx, if_pos]
    exact h2

/-! ## Claim C1, counterexample

The spec claims `cloud2idx (inv_cloud2idx c)` is within `1e-4` of `c` for
every coordinate `c ∈ [-1,1] × [-1,1]`.  At the south-pole coordinate
`c = (1/2, 1)` the unprojected point is `(0, 0, -1)`, whose azimuth is
irrecoverable: reprojection yields `(0, 1)` and the first component is off
by `1/2`. -/

theorem cloud2idx_pole_first_comp :
    cloud2idx (inv_cloud2idx (1/2, 1)) = (0, 1) := by
  have hinv : inv_cloud2idx (1/2, 1) = (0, 0, -1) := by
    simp only [inv_cloud2idx]
    have h1 : (1 - ((1:ℝ)/2 + 1) / 2) * (2 * Real.pi) - Real.pi = -(Real.pi / 2) := by
      ring
    have h2 : Real.pi * (((1:ℝ) + 1) / 2) = Real.pi := by
      norm_num
    rw [h1, h2]
    simp [Real.sin_pi, Real.cos_pi]
  rw [hinv]
  simp only [cloud2idx]
  have hsq : Real.sqrt ((0:ℝ) ^ 2 + 0 ^ 2) = 0 := by
    norm_num
  have heps : (0:ℝ) < eps := by norm_num [eps]
  have hneg : (-1 : ℝ) + eps < 0 := by norm_num [eps]
  have htheta : atan2 (Real.sqrt ((0:ℝ) ^ 2 + 0 ^ 2)) (-1 + eps) = Real.pi := by
    rw [hsq]; exact atan2_zero_of_neg hneg
  have hphi : atan2 (0:ℝ) (0 + eps) = 0 := by
    rw [atan2_of_pos_right (by norm_num [eps] : (0:ℝ) < 0 + eps)]
    simp [Real.arctan_zero]
  rw [htheta, hphi]
  have hpi : Real.pi ≠ 0 := Real.pi_ne_zero
  rw [Prod.mk.injEq]
  constructor
  · field_simp
    ring
  · field_simp
    norm_num

/-- Claim C1 (counterexample): the round-trip claim fails as stated.  At the
in-range coordinate `c = (1/2, 1)`, `cloud2idx (inv_cloud2idx c)` has first
component `0`, which differs from `c₁ = 1/2` by `1/2 > 1e-4`. -/
theorem C1_counterexample :
    ¬ (|(cloud2idx (inv_cloud2idx (1/2, 1))).1 - (1/2 : ℝ)| ≤ 1e-4 ∧
       |(cloud2idx (inv_cloud2idx (1/2, 1))).2 - (1 : ℝ)| ≤ 1e-4) := by
  intro h
  have h1 := h.1
  rw [cloud2idx_pole_first_comp] at h1
  rw [abs_sub_comm] at h1
  norm_num at h1
  rw [abs_of_nonneg (by norm_num : (0:ℝ) ≤ 1/2)] at h1
  norm_num at h1

/-! ## Analytic helper lemmas for the round-trip bounds (claim C1) -/

theorem eps_val : eps = 1e-6 := rfl

theorem eps_pos : 0 < eps := by
  rw [eps_val]
  norm_num

theorem arctan_le_self_of_nonneg (t : ℝ) (ht : 0 ≤ t) : Real.arctan t ≤ t := by
  have h1 : 0 ≤ Real.arctan t := by
    rw [← Real.arctan_zero]
    exact Real.arctan_strictMono.monotone ht
  calc Real.arctan t ≤ Real.tan (Real.arctan t) :=
        Real.le_tan h1 (Real.arctan_lt_pi_div_two t)
    _ = t := Real.tan_arctan t

theorem abs_arctan_le (t : ℝ) : |Real.arctan t| ≤ |t| := by
  rcases le_total 0 t with h | h
  · rw [abs_of_nonneg (by rw [← Real.arctan_zero]; exact Real.arctan_strictMono.monotone h),
      abs_of_nonneg h]
    exact arctan_le_self_of_nonneg t h
  · rw [abs_of_nonpos (by rw [← Real.arctan_zero]; exact Real.arctan_strictMono.monotone h),
      abs_of_nonpos h, ← Real.arctan_neg]
    exact arctan_le_self_of_nonneg (-t) (neg_nonneg.mpr h)

theorem arctan_diff_le (u v : ℝ) (h : -1 < u * v) :
    |Real.arctan u - Real.arctan v| ≤ |u - v| / (1 + u * v) := by
  have hne : u * (-v) < 1 := by nlinarith
  have hadd := Real.arctan_add hne
  rw [Real.arctan_neg] at hadd
  have heq : Real.arctan u - Real.arctan v = Real.arctan ((u - v) / (1 + u * v)) := by
    rw [sub_eq_add_neg, hadd]
    congr 1
    rw [sub_eq_add_neg u v]
    congr 1
    ring
  rw [heq]
  calc |Real.arctan ((u - v) / (1 + u * v))| ≤ |(u - v) / (1 + u * v)| := abs_arctan_le _
    _ = |u - v| / (1 + u * v) := by
        rw [abs_div, abs_of_pos (by linarith : (0:ℝ) < 1 + u * v)]

theorem abs_sin_sub_sin_le (a b : ℝ) : |Real.sin a - Real.sin b| ≤ |a - b| := by
  rw [Real.sin_sub_sin, abs_mul, abs_mul]
  have h1 : |Real.sin ((a - b) / 2)| ≤ |(a - b) / 2| := Real.abs_sin_le_abs
  have h2 : |Real.cos ((a + b) / 2)| ≤ 1 := Real.abs_cos_le_one _
  have h3 : |(2:ℝ)| = 2 := by norm_num
  calc |(2:ℝ)| * |Real.sin ((a - b) / 2)| * |Real.cos ((a + b) / 2)|
      ≤ |(2:ℝ)| * |(a - b) / 2| * 1 := by
        apply mul_le_mul _ h2 (abs_nonneg _) (by positivity)
        exact mul_le_mul le_rfl h1 (abs_nonneg _) (abs_nonneg _)
    _ = 2 * (|a - b| / 2) := by rw [h3, abs_div]; norm_num
    _ = |a - b| := by ring

theorem abs_cos_sub_cos_le (a b : ℝ) : |Real.cos a - Real.cos b| ≤ |a - b| := by
  rw [Real.cos_sub_cos, abs_mul, abs_mul]
  have h1 : |Real.sin ((a - b) / 2)| ≤ |(a - b) / 2| := Real.abs_sin_le_abs
  have h2 : |Real.sin ((a + b) / 2)| ≤ 1 := Real.abs_sin_le_one _
  have h3 : |(-2:ℝ)| = 2 := by norm_num
  calc |(-2:ℝ)| * |Real.sin ((a + b) / 2)| * |Real.sin ((a - b) / 2)|
      ≤ |(-2:ℝ)| * 1 * |(a - b) / 2| := by
        apply mul_le_mul _ h1 (abs_nonneg _) (by positivity)
        exact mul_le_mul le_rfl h2 (abs_nonneg _) (abs_nonneg _)
    _ = 2 * (|a - b| / 2) := by rw [h3, abs_div]; norm_num
    _ = |a - b| := by ring

/-- On the band `[π/4, 3π/4]` the sine is at least `√2/2`. -/
theorem sqrt_two_div_two_le_sin {θ : ℝ} (h1 : Real.pi / 4 ≤ θ) (h2 : θ ≤ 3 * Real.pi / 4) :
    Real.sqrt 2 / 2 ≤ Real.sin θ := by
  have hpi := Real.pi_pos
  have hθ : θ = (θ - Real.pi / 4) + Real.pi / 4 := by ring
  have ht0 : 0 ≤ θ - Real.pi / 4 := by linarith
  have ht1 : θ - Real.pi / 4 ≤ Real.pi / 2 := by linarith
  rw [hθ, Real.sin_add, Real.sin_pi_div_four, Real.cos_pi_div_four]
  have hs : 0 ≤ Real.sin (θ - Real.pi / 4) :=
    Real.sin_nonneg_of_nonneg_of_le_pi ht0 (by linarith)
  have hc : 0 ≤ Real.cos (θ - Real.pi / 4) :=
    Real.cos_nonneg_of_mem_Icc ⟨by linarith, ht1⟩
  have hsum : 1 ≤ Real.sin (θ - Real.pi / 4) + Real.cos (θ - Real.pi / 4) := by
    nlinarith [Real.sin_sq_add_cos_sq (θ - Real.pi / 4)]
  nlinarith [Real.sqrt_nonneg 2]

theorem sqrt_two_bounds : (1.4 : ℝ) ≤ Real.sqrt 2 ∧ Real.sqrt 2 ≤ 1.5 := by
  have h2 : Real.sqrt 2 ^ 2 = 2 := Real.sq_sqrt (by norm_num)
  have hn : 0 ≤ Real.sqrt 2 := Real.sqrt_nonneg 2
  constructor
  · nlinarith
  · nlinarith

theorem div_bound_pos (a A b : ℝ) (ha : 0 ≤ a) (hA : a ≤ A) (hb : 1/2 ≤ b) :
    a / b ≤ 2 * A := by
  have hb0 : 0 < b := by linarith
  rw [div_le_iff hb0]
  nlinarith

/-- Shifting the numerator of an arctangent quotient by `eps`, with the
denominator bounded away from zero from below, moves the angle by at most
`3e-6`. -/
theorem arctan_eps_shift_num (s c : ℝ) (hs : 7/10 ≤ s) (hs1 : s ≤ 1) (hc : |c| ≤ 1) :
    |Real.arctan ((c + eps) / s) - Real.arctan (c / s)| ≤ 3e-6 := by
  have hs0 : 0 < s := by linarith
  have hc1 : -1 ≤ c := (abs_le.mp hc).1
  have hc2 : c ≤ 1 := (abs_le.mp hc).2
  have hD : (49:ℝ)/100 ≤ s * s := by nlinarith
  have hN : -(1e-6) ≤ (c + eps) * c := by
    rw [eps_val]
    nlinarith [sq_nonneg c]
  have huv2 : -(3e-6 : ℝ) ≤ (c + eps) / s * (c / s) := by
    have heq : (c + eps) / s * (c / s) = ((c + eps) * c) / (s * s) :=
      div_mul_div_comm (c + eps) s c s
    rw [heq, le_div_iff (by nlinarith : (0:ℝ) < s * s)]
    nlinarith
  have huv : (-1 : ℝ) < (c + eps) / s * (c / s) := by linarith
  have huvlb : 1/2 ≤ 1 + (c + eps) / s * (c / s) := by linarith
  have hnum : |(c + eps) / s - c / s| ≤ 3/2 * 1e-6 := by
    have heq : (c + eps) / s - c / s = eps / s := by ring
    rw [heq, abs_div, abs_of_pos hs0, abs_of_pos eps_pos, eps_val, div_le_iff hs0]
    nlinarith
  calc |Real.arctan ((c + eps) / s) - Real.arctan (c / s)|
      ≤ |(c + eps) / s - c / s| / (1 + (c + eps) / s * (c / s)) := arctan_diff_le _ _ huv
    _ ≤ 2 * (3/2 * 1e-6) := div_bound_pos _ _ _ (abs_nonneg _) hnum huvlb
    _ ≤ 3e-6 := by norm_num

/-- Shifting the denominator of an arctangent quotient by `eps`, with the
denominator at least `1/2` and the numerator bounded by one, moves the
angle by at most `8e-6`. -/
theorem arctan_eps_shift_den (x y : ℝ) (hx : 1/2 ≤ x) (hy : |y| ≤ 1) :
    |Real.arctan (y / (x + eps)) - Real.arctan (y / x)| ≤ 8e-6 := by
  have hx0 : 0 < x := by linarith
  have hxe : 0 < x + eps := by linarith [eps_pos]
  have huv : 0 ≤ y / (x + eps) * (y / x) := by
    have heq : y / (x + eps) * (y / x) = (y * y) / ((x + eps) * x) :=
      div_mul_div_comm y (x + eps) y x
    rw [heq]
    exact div_nonneg (mul_self_nonneg y) (le_of_lt (by nlinarith : (0:ℝ) < (x + eps) * x))
  have huv1 : (-1 : ℝ) < y / (x + eps) * (y / x) := by linarith
  have huvlb : 1/2 ≤ 1 + y / (x + eps) * (y / x) := by linarith
  have hnum : |y / (x + eps) - y / x| ≤ 4e-6 := by
    have heq : y / (x + eps) - y / x = -(y * eps) / ((x + eps) * x) := by
      field_simp
      ring
    rw [heq, abs_div, abs_neg, abs_mul,
      abs_of_pos (by positivity : (0:ℝ) < (x + eps) * x)]
    have hden : 1/4 ≤ (x + eps) * x := by nlinarith [eps_pos]
    have hnum2 : |y| * |eps| ≤ 1e-6 := by
      rw [abs_of_pos eps_pos, eps_val]
      nlinarith [abs_nonneg y]
    rw [div_le_iff (by positivity : (0:ℝ) < (x + eps) * x)]
    nlinarith
  calc |Real.arctan (y / (x + eps)) - Real.arctan (y / x)|
      ≤ |y / (x + eps) - y / x| / (1 + y / (x + eps) * (y / x)) := arctan_diff_le _ _ huv1
    _ ≤ 2 * 4e-6 := div_bound_pos _ _ _ (abs_nonneg _) hnum huvlb
    _ ≤ 8e-6 := by norm_num

theorem prod_diff_bound (a b a' b' da db : ℝ)
    (ha : |a| ≤ 1) (hb' : |b'| ≤ 1) (h1 : |b - b'| ≤ db) (h2 : |a - a'| ≤ da) :
    |a * b - a' * b'| ≤ db + da := by
  have heq : a * b - a' * b' = a * (b - b') + b' * (a - a') := by ring
  rw [heq]
  calc |a * (b - b') + b' * (a - a')| ≤ |a * (b - b')| + |b' * (a - a')| := abs_add _ _
    _ = |a| * |b - b'| + |b'| * |a - a'| := by rw [abs_mul, abs_mul]
    _ ≤ 1 * db + 1 * da := by
        apply add_le_add
        · exact mul_le_mul ha h1 (abs_nonneg _) zero_le_one
        · exact mul_le_mul hb' h2 (abs_nonneg _) zero_le_one
    _ = db + da := by ring

set_option maxHeartbeats 1600000 in
/-- Round trip on the coordinate side, away from the poles and the seam:
on `|c₁| ≤ 1/4`, `|c₂| ≤ 1/2` the reprojection error stays within `1e-4`
(the 1e-6 epsilon guards shift each angle by a few microradians only). -/
theorem roundtrip_coord (c1 c2 : ℝ) (h1 : |c1| ≤ 1/4) (h2 : |c2| ≤ 1/2) :
    |(cloud2idx (inv_cloud2idx (c1, c2))).1 - c1| ≤ 1e-4 ∧
    |(cloud2idx (inv_cloud2idx (c1, c2))).2 - c2| ≤ 1e-4 := by
  have hpi := Real.pi_pos
  have hpi3 := Real.pi_gt_three
  have hsqrt2 := sqrt_two_bounds
  set φ := (1 - (c1 + 1) / 2) * (2 * Real.pi) - Real.pi with hφdef
  set θ := Real.pi * ((c2 + 1) / 2) with hθdef
  have hinv : inv_cloud2idx (c1, c2) =
      (Real.sin θ * Real.cos φ, Real.sin θ * Real.sin φ, Real.cos θ) := rfl
  have hφ : φ = -(Real.pi * c1) := by rw [hφdef]; ring
  have hc1a := abs_le.mp h1
  have hc2a := abs_le.mp h2
  have hφabs : |φ| ≤ Real.pi / 4 := by
    rw [hφ, abs_neg, abs_mul, abs_of_pos hpi]
    nlinarith [h1]
  have hφa := abs_le.mp hφabs
  have hθlo : Real.pi / 4 ≤ θ := by
    rw [hθdef]
    nlinarith [hc2a.1]
  have hθhi : θ ≤ 3 * Real.pi / 4 := by
    rw [hθdef]
    nlinarith [hc2a.2]
  have hsin_band : Real.sqrt 2 / 2 ≤ Real.sin θ := sqrt_two_div_two_le_sin hθlo hθhi
  have hsin7 : 7/10 ≤ Real.sin θ := by linarith [hsqrt2.1]
  have hsin1 : Real.sin θ ≤ 1 := Real.sin_le_one θ
  have hsinpos : 0 < Real.sin θ := by linarith
  have hcos_band : Real.sqrt 2 / 2 ≤ Real.cos φ := by
    rw [← Real.sin_pi_div_two_sub]
    apply sqrt_two_div_two_le_sin
    · linarith [hφa.2]
    · linarith [hφa.1]
  have hcospos : 0 < Real.cos φ := by linarith [hsqrt2.1]
  have hnorm : Real.sqrt ((Real.sin θ * Real.cos φ) ^ 2 + (Real.sin θ * Real.sin φ) ^ 2) =
      Real.sin θ := by
    have hh : (Real.sin θ * Real.cos φ) ^ 2 + (Real.sin θ * Real.sin φ) ^ 2 =
        Real.sin θ ^ 2 := by
      have := Real.sin_sq_add_cos_sq φ
      nlinarith [this]
    rw [hh]
    exact Real.sqrt_sq (le_of_lt hsinpos)
  have hcloud : cloud2idx (Real.sin θ * Real.cos φ, Real.sin θ * Real.sin φ, Real.cos θ) =
      (2 * (1 - (atan2 (Real.sin θ * Real.sin φ) (Real.sin θ * Real.cos φ + eps) +
          Real.pi) / (2 * Real.pi)) - 1,
       2 * (atan2 (Real.sin θ) (Real.cos θ + eps) / Real.pi) - 1) := by
    simp only [cloud2idx]
    rw [hnorm]
  have hth : atan2 (Real.sin θ) (Real.cos θ + eps) =
      Real.pi / 2 - Real.arctan ((Real.cos θ + eps) / Real.sin θ) :=
    atan2_of_pos_left hsinpos
  have hθeq : θ = Real.pi / 2 - Real.arctan (Real.cos θ / Real.sin θ) := by
    have htan : Real.tan (Real.pi / 2 - θ) = Real.cos θ / Real.sin θ := by
      rw [Real.tan_eq_sin_div_cos, Real.sin_pi_div_two_sub, Real.cos_pi_div_two_sub]
    have harct : Real.arctan (Real.cos θ / Real.sin θ) = Real.pi / 2 - θ := by
      rw [← htan]
      exact Real.arctan_tan (by linarith) (by linarith)
    linarith [harct]
  have hΔθ : |atan2 (Real.sin θ) (Real.cos θ + eps) - θ| ≤ 3e-6 := by
    have heq2 : atan2 (Real.sin θ) (Real.cos θ + eps) - θ =
        Real.arctan (Real.cos θ / Real.sin θ) -
          Real.arctan ((Real.cos θ + eps) / Real.sin θ) := by
      rw [hth]
      linarith [hθeq]
    rw [heq2, abs_sub_comm]
    exact arctan_eps_shift_num (Real.sin θ) (Real.cos θ) hsin7 hsin1 (Real.abs_cos_le_one θ)
  have hxpos : (1:ℝ)/2 ≤ Real.sin θ * Real.cos φ := by
    have hmul : (Real.sqrt 2 / 2) * (Real.sqrt 2 / 2) ≤ Real.sin θ * Real.cos φ :=
      mul_le_mul hsin_band hcos_band (by positivity) (by linarith)
    have hval : (Real.sqrt 2 / 2) * (Real.sqrt 2 / 2) = 1/2 := by
      rw [div_mul_div_comm, Real.mul_self_sqrt (by norm_num : (0:ℝ) ≤ 2)]
      norm_num
    linarith [hval ▸ hmul]
  have hyabs : |Real.sin θ * Real.sin φ| ≤ 1 := by
    rw [abs_mul]
    calc |Real.sin θ| * |Real.sin φ| ≤ 1 * 1 :=
          mul_le_mul (Real.abs_sin_le_one θ) (Real.abs_sin_le_one φ) (abs_nonneg _)
            zero_le_one
      _ = 1 := by norm_num
  have hph : atan2 (Real.sin θ * Real.sin φ) (Real.sin θ * Real.cos φ + eps) =
      Real.arctan ((Real.sin θ * Real.sin φ) / (Real.sin θ * Real.cos φ + eps)) :=
    atan2_of_pos_right (by linarith [eps_pos])
  have hφeq : φ = Real.arctan ((Real.sin θ * Real.sin φ) / (Real.sin θ * Real.cos φ)) := by
    have hsimp : (Real.sin θ * Real.sin φ) / (Real.sin θ * Real.cos φ) = Real.tan φ := by
      rw [Real.tan_eq_sin_div_cos, mul_div_mul_left _ _ (ne_of_gt hsinpos)]
    rw [hsimp, Real.arctan_tan]
    · linarith [hφa.1]
    · linarith [hφa.2]
  have hΔφ : |atan2 (Real.sin θ * Real.sin φ) (Real.sin θ * Real.cos φ + eps) - φ| ≤
      8e-6 := by
    have heq2 : atan2 (Real.sin θ * Real.sin φ) (Real.sin θ * Real.cos φ + eps) - φ =
        Real.arctan ((Real.sin θ * Real.sin φ) / (Real.sin θ * Real.cos φ + eps)) -
          Real.arctan ((Real.sin θ * Real.sin φ) / (Real.sin θ * Real.cos φ)) := by
      rw [hph]
      linarith [hφeq]
    rw [heq2]
    exact arctan_eps_shift_den (Real.sin θ * Real.cos φ) (Real.sin θ * Real.sin φ)
      hxpos hyabs
  rw [hinv, hcloud]
  constructor
  · have hc1eq : c1 = -(φ / Real.pi) := by
      rw [hφ]
      field_simp
    have hr : 2 * (1 - (atan2 (Real.sin θ * Real.sin φ) (Real.sin θ * Real.cos φ + eps) +
        Real.pi) / (2 * Real.pi)) - 1 - c1 =
        -((atan2 (Real.sin θ * Real.sin φ) (Real.sin θ * Real.cos φ + eps) - φ) /
          Real.pi) := by
      rw [hc1eq]
      field_simp
      ring
    show |2 * (1 - (atan2 (Real.sin θ * Real.sin φ) (Real.sin θ * Real.cos φ + eps) +
        Real.pi) / (2 * Real.pi)) - 1 - c1| ≤ 1e-4
    rw [hr, abs_neg, abs_div, abs_of_pos hpi]
    calc |atan2 (Real.sin θ * Real.sin φ) (Real.sin θ * Real.cos φ + eps) - φ| / Real.pi
        ≤ 8e-6 / 3 := div_le_div (by norm_num) hΔφ (by norm_num) (by linarith)
      _ ≤ 1e-4 := by norm_num
  · have hc2eq : c2 = 2 * θ / Real.pi - 1 := by
      rw [hθdef]
      field_simp
    have hr : 2 * (atan2 (Real.sin θ) (Real.cos θ + eps) / Real.pi) - 1 - c2 =
        2 * (atan2 (Real.sin θ) (Real.cos θ + eps) - θ) / Real.pi := by
      rw [hc2eq]
      field_simp
      ring
    show |2 * (atan2 (Real.sin θ) (Real.cos θ + eps) / Real.pi) - 1 - c2| ≤ 1e-4
    rw [hr, abs_div, abs_mul, abs_of_pos hpi]
    have h2' : |(2:ℝ)| = 2 := by norm_num
    rw [h2']
    calc 2 * |atan2 (Real.sin θ) (Real.cos θ + eps) - θ| / Real.pi
        ≤ (2 * 3e-6) / 3 := by
          apply div_le_div (by norm_num) _ (by norm_num) (by linarith)
          nlinarith [hΔθ]
      _ ≤ 1e-4 := by norm_num

set_option maxHeartbeats 1600000 in
/-- Round trip on the point side, for unit points away from the seam and
the poles: with `x ≥ 1/2` and `z² ≤ 1/2` the reprojection error stays
within `1e-4` in every component. -/
theorem roundtrip_point (x y z : ℝ) (hu : x ^ 2 + y ^ 2 + z ^ 2 = 1)
    (hx : 1/2 ≤ x) (hz : z ^ 2 ≤ 1/2) :
    |(inv_cloud2idx (cloud2idx (x, y, z))).1 - x| ≤ 1e-4 ∧
    |(inv_cloud2idx (cloud2idx (x, y, z))).2.1 - y| ≤ 1e-4 ∧
    |(inv_cloud2idx (cloud2idx (x, y, z))).2.2 - z| ≤ 1e-4 := by
  have hpi := Real.pi_pos
  set s := Real.sqrt (x ^ 2 + y ^ 2) with hsdef
  have hs0 : 0 ≤ s := Real.sqrt_nonneg _
  have hs2 : s ^ 2 = x ^ 2 + y ^ 2 := Real.sq_sqrt (by positivity)
  have hsz : s ^ 2 + z ^ 2 = 1 := by rw [hs2]; linarith
  have hs_lb : 7/10 ≤ s := by nlinarith
  have hs_ub : s ≤ 1 := by nlinarith
  have hspos : 0 < s := by linarith
  have hzabs : |z| ≤ 1 := abs_le.mpr ⟨by nlinarith, by nlinarith⟩
  have hyabs : |y| ≤ 1 := abs_le.mpr ⟨by nlinarith, by nlinarith⟩
  have hxe : 0 < x + eps := by linarith [eps_pos]
  set thH := atan2 s (z + eps) with hthHdef
  set phiH := atan2 y (x + eps) with hphiHdef
  have hcloud : cloud2idx (x, y, z) =
      (2 * (1 - (phiH + Real.pi) / (2 * Real.pi)) - 1, 2 * (thH / Real.pi) - 1) := by
    simp only [cloud2idx]
  have hinv : inv_cloud2idx (2 * (1 - (phiH + Real.pi) / (2 * Real.pi)) - 1,
      2 * (thH / Real.pi) - 1) =
      (Real.sin thH * Real.cos phiH, Real.sin thH * Real.sin phiH, Real.cos thH) := by
    simp only [inv_cloud2idx]
    have harg1 : (1 - ((2 * (1 - (phiH + Real.pi) / (2 * Real.pi)) - 1) + 1) / 2) *
        (2 * Real.pi) - Real.pi = phiH := by
      field_simp
      ring
    have harg2 : Real.pi * (((2 * (thH / Real.pi) - 1) + 1) / 2) = thH := by
      field_simp
      ring
    rw [harg1, harg2]
  have hthdiff : |thH - (Real.pi / 2 - Real.arctan (z / s))| ≤ 3e-6 := by
    have hth : thH = Real.pi / 2 - Real.arctan ((z + eps) / s) := by
      rw [hthHdef]
      exact atan2_of_pos_left hspos
    have heq2 : thH - (Real.pi / 2 - Real.arctan (z / s)) =
        Real.arctan (z / s) - Real.arctan ((z + eps) / s) := by
      rw [hth]
      ring
    rw [heq2, abs_sub_comm]
    exact arctan_eps_shift_num s z hs_lb hs_ub hzabs
  have hphdiff : |phiH - Real.arctan (y / x)| ≤ 8e-6 := by
    have hph : phiH = Real.arctan (y / (x + eps)) := by
      rw [hphiHdef]
      exact atan2_of_pos_right hxe
    rw [hph]
    exact arctan_eps_shift_den x y hx hyabs
  have hone : 1 + (z / s) ^ 2 = 1 / s ^ 2 := by
    rw [div_pow]
    field_simp
    linarith [hsz]
  have hsqrt_one : Real.sqrt (1 + (z / s) ^ 2) = 1 / s := by
    rw [hone, one_div, Real.sqrt_inv, Real.sqrt_sq hs0, one_div]
  have hsin_t : Real.sin (Real.pi / 2 - Real.arctan (z / s)) = s := by
    rw [Real.sin_pi_div_two_sub, Real.cos_arctan, hsqrt_one]
    field_simp
  have hcos_t : Real.cos (Real.pi / 2 - Real.arctan (z / s)) = z := by
    rw [Real.cos_pi_div_two_sub, Real.sin_arctan, hsqrt_one]
    field_simp
  have hxpos : 0 < x := by linarith
  have hx0 : x ≠ 0 := ne_of_gt hxpos
  have hs0' : s ≠ 0 := ne_of_gt hspos
  have hone2 : 1 + (y / x) ^ 2 = s ^ 2 / x ^ 2 := by
    rw [div_pow]
    field_simp
    linarith [hs2]
  have hsqrt_two : Real.sqrt (1 + (y / x) ^ 2) = s / x := by
    rw [hone2, Real.sqrt_div (sq_nonneg s), Real.sqrt_sq hs0,
      Real.sqrt_sq (le_of_lt hxpos)]
  have hcos_p : Real.cos (Real.arctan (y / x)) = x / s := by
    rw [Real.cos_arctan, hsqrt_two, one_div_div]
  have hsin_p : Real.sin (Real.arctan (y / x)) = y / s := by
    rw [Real.sin_arctan, hsqrt_two]
    field_simp
  have hxeq : Real.sin (Real.pi / 2 - Real.arctan (z / s)) *
      Real.cos (Real.arctan (y / x)) = x := by
    rw [hsin_t, hcos_p]
    field_simp
  have hyeq : Real.sin (Real.pi / 2 - Real.arctan (z / s)) *
      Real.sin (Real.arctan (y / x)) = y := by
    rw [hsin_t, hsin_p]
    field_simp
  rw [hcloud, hinv]
  refine ⟨?_, ?_, ?_⟩
  · show |Real.sin thH * Real.cos phiH - x| ≤ 1e-4
    rw [← hxeq]
    calc |Real.sin thH * Real.cos phiH -
          Real.sin (Real.pi / 2 - Real.arctan (z / s)) * Real.cos (Real.arctan (y / x))|
        ≤ 8e-6 + 3e-6 := by
          apply prod_diff_bound _ _ _ _ 3e-6 8e-6 (Real.abs_sin_le_one _)
            (Real.abs_cos_le_one _)
          · exact le_trans (abs_cos_sub_cos_le _ _) hphdiff
          · exact le_trans (abs_sin_sub_sin_le _ _) hthdiff
      _ ≤ 1e-4 := by norm_num
  · show |Real.sin thH * Real.sin phiH - y| ≤ 1e-4
    rw [← hyeq]
    calc |Real.sin thH * Real.sin phiH -
          Real.sin (Real.pi / 2 - Real.arctan (z / s)) * Real.sin (Real.arctan (y / x))|
        ≤ 8e-6 + 3e-6 := by
          apply prod_diff_bound _ _ _ _ 3e-6 8e-6 (Real.abs_sin_le_one _)
            (Real.abs_sin_le_one _)
          · exact le_trans (abs_sin_sub_sin_le _ _) hphdiff
          · exact le_trans (abs_sin_sub_sin_le _ _) hthdiff
      _ ≤ 1e-4 := by norm_num
  · show |Real.cos thH - z| ≤ 1e-4
    rw [← hcos_t]
    calc |Real.cos thH - Real.cos (Real.pi / 2 - Real.arctan (z / s))|
        ≤ 3e-6 := le_trans (abs_cos_sub_cos_le _ _) hthdiff
      _ ≤ 1e-4 := by norm_num

/-- Claim C1 (amended): away from the singular sets of the 1e-6 epsilon
guards, both round trips hold within `1e-4`: for every unit-norm point `p`
(so `p/‖p‖ = p`) with `p.x ≥ 1/2` and `p.z² ≤ 1/2`,
`inv_cloud2idx (cloud2idx p)` is within `1e-4` of `p` componentwise; and
for every coordinate `c` with `|c₁| ≤ 1/4` and `|c₂| ≤ 1/2`,
`cloud2idx (inv_cloud2idx c)` is within `1e-4` of `c` componentwise. -/
theorem C1_amended :
    (∀ p : ℝ × ℝ × ℝ, dist3 p = 1 → 1/2 ≤ p.1 → p.2.2 ^ 2 ≤ 1/2 →
      |(inv_cloud2idx (cloud2idx p)).1 - p.1| ≤ 1e-4 ∧
      |(inv_cloud2idx (cloud2idx p)).2.1 - p.2.1| ≤ 1e-4 ∧
      |(inv_cloud2idx (cloud2idx p)).2.2 - p.2.2| ≤ 1e-4) ∧
    (∀ c : ℝ × ℝ, |c.1| ≤ 1/4 → |c.2| ≤ 1/2 →
      |(cloud2idx (inv_cloud2idx c)).1 - c.1| ≤ 1e-4 ∧
      |(cloud2idx (inv_cloud2idx c)).2 - c.2| ≤ 1e-4) := by
  constructor
  · rintro ⟨x, y, z⟩ hu hx hz
    have husq : x ^ 2 + y ^ 2 + z ^ 2 = 1 := by
      have h1 : Real.sqrt (x ^ 2 + y ^ 2 + z ^ 2) = 1 := hu
      have h2 := Real.sq_sqrt (by positivity : (0:ℝ) ≤ x ^ 2 + y ^ 2 + z ^ 2)
      rw [h1] at h2
      linarith [h2]
    exact roundtrip_point x y z husq hx hz
  · rintro ⟨c1, c2⟩ h1 h2
    exact roundtrip_coord c1 c2 h1 h2

/-- Claim C1, witness for the amended theorem: the unit point `(1, 0, 0)`
and the center coordinate `(0, 0)` satisfy the hypotheses. -/
theorem C1_amended_witness :
    dist3 ((1:ℝ), (0:ℝ), (0:ℝ)) = 1 ∧ ((1:ℝ)/2 ≤ 1) ∧ (((0:ℝ)) ^ 2 ≤ 1/2) ∧
    |(inv_cloud2idx (cloud2idx ((1:ℝ), (0:ℝ), (0:ℝ)))).1 - 1| ≤ 1e-4 ∧
    (|((0:ℝ), (0:ℝ)).1| ≤ 1/4) ∧
    |(cloud2idx (inv_cloud2idx ((0:ℝ), (0:ℝ)))).1 - 0| ≤ 1e-4 := by
  have hd : dist3 ((1:ℝ), (0:ℝ), (0:ℝ)) = 1 := by
    unfold dist3
    norm_num
  refine ⟨hd, by norm_num, by norm_num, ?_, by norm_num, ?_⟩
  · exact (C1_amended.1 ((1:ℝ), (0:ℝ), (0:ℝ)) hd (by norm_num) (by norm_num)).1
  · exact (C1_amended.2 ((0:ℝ), (0:ℝ)) (by norm_num) (by norm_num)).1

/-! ## Lemmas about `argsort` -/

theorem argsort_pairwise (l : List ℚ) :
    List.Pairwise (fun i j => l.getD i 0 ≤ l.getD j 0) (argsort l) := by
  haveI : IsTotal ℕ (fun i j => l.getD i 0 ≤ l.getD j 0) := ⟨fun a b => le_total _ _⟩
  haveI : IsTrans ℕ (fun i j => l.getD i 0 ≤ l.getD j 0) :=
    ⟨fun a b c hab hbc => le_trans hab hbc⟩
  exact List.sorted_insertionSort _ _

theorem argsort_perm (l : List ℚ) : (argsort l).Perm (List.range l.length) :=
  List.perm_insertionSort _ _

theorem argsort_length (l : List ℚ) : (argsort l).length = l.length := by
  rw [(argsort_perm l).length_eq, List.length_range]

/-! ## Claim C4, counterexample

`histogram_pose_search` selects `argsort()[-num_input:]` with no flip, so
the returned scores are in ascending order; for the score matrix `[1, 2]`
(`K = 1`, `R = 2`) with `num_input = 2` the output scores are `[1, 2]`,
which is not non-increasing. -/

/-- Claim C4 (counterexample): the returned top-N scores of
`histogram_pose_search` are not non-increasing in output order; for the
flattened score matrix `[1, 2]` (shape 1×2) with `num_input = 2`, the
output scores are `[1, 2]`, increasing. -/
theorem C4_counterexample :
    histogram_pose_search_scores [1, 2] 2 = [1, 2] ∧
    ¬ List.Chain' (fun a b => b ≤ a) (histogram_pose_search_scores [1, 2] 2) := by
  have h : histogram_pose_search_scores [1, 2] 2 = [1, 2] := by decide
  refine ⟨h, ?_⟩
  rw [h]
  simp only [List.chain'_cons, List.chain'_singleton, and_true]
  norm_num

/-- Claim C4 (amended): the candidates returned by the
`histogram_pose_search` selection are exactly the `num_input` largest
entries of the flattened K×R score matrix, their scores are
**non-decreasing** (ascending) in output order, and each selected
flattened index maps back to `(translation-index, rotation-index)` by
integer division and modulo by `R`. -/
theorem C4_amended (hist : List ℚ) (numInput R : ℕ) (hR : 0 < R) :
    List.Chain' (fun a b => a ≤ b) (histogram_pose_search_scores hist numInput) ∧
    (∀ i ∈ histogram_pose_search_inds hist numInput, ∀ j < hist.length,
        j ∉ histogram_pose_search_inds hist numInput → hist.getD j 0 ≤ hist.getD i 0) ∧
    histogram_pose_search_select hist numInput R =
      (histogram_pose_search_inds hist numInput).map (fun idx => (idx / R, idx % R)) ∧
    (∀ idx ∈ histogram_pose_search_inds hist numInput, R * (idx / R) + idx % R = idx ∧ idx % R < R) := by
  have hsub : ∀ m, (argsort hist).drop m <:+ argsort hist := fun m => List.drop_suffix _ _
  have hinds_pw : List.Pairwise (fun i j => hist.getD i 0 ≤ hist.getD j 0)
      (histogram_pose_search_inds hist numInput) := by
    unfold histogram_pose_search_inds sliceLast
    by_cases h0 : numInput = 0
    · simpa [h0] using argsort_pairwise hist
    · rw [if_neg h0]
      exact (argsort_pairwise hist).sublist ((hsub _).sublist)
  refine ⟨?_, ?_, rfl, ?_⟩
  · rw [histogram_pose_search_scores, List.chain'_iff_pairwise, List.pairwise_map]
    exact hinds_pw
  · intro i hi j hj hj2
    by_cases h0 : numInput = 0
    · exfalso
      apply hj2
      unfold histogram_pose_search_inds sliceLast
      rw [if_pos h0]
      rw [(argsort_perm hist).mem_iff]
      exact List.mem_range.mpr hj
    · have hsplit : argsort hist =
          (argsort hist).take ((argsort hist).length - numInput) ++
          (argsort hist).drop ((argsort hist).length - numInput) :=
        (List.take_append_drop _ _).symm
      have hinds_eq : histogram_pose_search_inds hist numInput =
          (argsort hist).drop ((argsort hist).length - numInput) := by
        unfold histogram_pose_search_inds sliceLast
        rw [if_neg h0, argsort_length]
      have hjmem : j ∈ argsort hist := by
        rw [(argsort_perm hist).mem_iff]
        exact List.mem_range.mpr hj
      have hjtake : j ∈ (argsort hist).take ((argsort hist).length - numInput) := by
        rcases (List.mem_append.mp (hsplit ▸ hjmem)) with h | h
        · exact h
        · exact absurd (hinds_eq ▸ h) hj2
      have hpw := argsort_pairwise hist
      rw [hsplit, List.pairwise_append] at hpw
      exact hpw.2.2 j hjtake i (hinds_eq ▸ hi)
  · intro idx _
    exact ⟨Nat.div_add_mod idx R, Nat.mod_lt idx hR⟩

/-- Claim C4, witness for the amended theorem at the concrete score matrix
`[1, 2]` (K = 1, R = 2) with `num_input = 2`. -/
theorem C4_amended_witness :
    (0 < 2) ∧ List.Chain' (fun a b : ℚ => a ≤ b) (histogram_pose_search_scores [1, 2] 2) :=
  ⟨by decide, (C4_amended [1, 2] 2 2 (by decide)).1⟩

/-! ## Claim C7: degenerate trim clamping -/

/-- Claim C7: when `num_input` is at least the number of available
candidates, each of the three pose-search selections returns all available
candidates (a permutation of all flattened indices) instead of failing:
`histogram_pose_search` and `direct_histogram_pose_search` because the
Python slice `[-n:]` clamps, `sampling_loss_pose_search` because of the
explicit `min(num_input, len(loss_table.flatten()))`. -/
theorem C7_clamps_to_available (hist losses : List ℚ) (numInput : ℕ)
    (h1 : hist.length ≤ numInput) (h2 : losses.length ≤ numInput) :
    (histogram_pose_search_inds hist numInput).Perm (List.range hist.length) ∧
    (sampling_loss_pose_search_inds losses numInput).Perm (List.range losses.length) ∧
    (direct_histogram_pose_search_inds hist numInput).Perm (List.range hist.length) := by
  have hall : histogram_pose_search_inds hist numInput = argsort hist := by
    unfold histogram_pose_search_inds sliceLast
    by_cases h0 : numInput = 0
    · rw [if_pos h0]
    · rw [if_neg h0, argsort_length, Nat.sub_eq_zero_of_le h1, List.drop_zero]
  refine ⟨?_, ?_, ?_⟩
  · rw [hall]; exact argsort_perm hist
  · unfold sampling_loss_pose_search_inds
    rw [min_eq_right h2,
      List.take_of_length_le (le_of_eq (argsort_length losses))]
    exact argsort_perm losses
  · rw [direct_histogram_pose_search_inds]
    show (sliceLast numInput (argsort hist)).reverse.Perm _
    have : sliceLast numInput (argsort hist) = argsort hist := hall
    rw [this]
    exact (List.reverse_perm _).trans (argsort_perm hist)

/-- Claim C7, witness at concrete inputs: histogram scores `[1, 2]` and
loss table `[3]` with `num_input = 5` exceeding both candidate counts. -/
theorem C7_witness :
    ([(1 : ℚ), 2].length ≤ 5) ∧ ([(3 : ℚ)].length ≤ 5) ∧
    (histogram_pose_search_inds [1, 2] 5).Perm (List.range 2) :=
  ⟨by decide, by decide,
    (C7_clamps_to_available [1, 2] [3] 5 (by decide) (by decide)).1⟩

/-! ## Claim C8: running-average score accumulation -/

/-- Claim C8 (counterexample): the accumulator of `make_score_map_3d` is
not updated by `new = old*(n-1)/n + update/n` with `update` the raw
back-projected intersection value: for the per-point update sequence
`[1, 0]` the code yields `1` (zero updates are replaced by the old score
before averaging), while the claimed formula yields `1/2`. -/
theorem C8_counterexample :
    score_map_run [1, 0] = 1 ∧ score_map_run_claimed [1, 0] = 1/2 ∧ (1 : ℚ) ≠ 1/2 := by
  refine ⟨?_, ?_, by norm_num⟩
  · norm_num [score_map_run, score_map_step]
  · norm_num [score_map_run_claimed, score_map_step_claimed]

/-- Auxiliary: the counter component of the accumulator fold counts the
updates consumed. -/
theorem score_map_run_counter (updates : List ℚ) (a : ℚ) (k : ℕ) :
    (updates.foldl (fun p u => (score_map_step p.1 u (p.2 + 1), p.2 + 1)) (a, k)).2 =
      k + updates.length := by
  induction updates generalizing a k with
  | nil => simp
  | cons u us ih =>
      simp only [List.foldl_cons, List.length_cons]
      rw [ih]
      omega

/-- Claim C8 (amended): at every evaluation step the per-point accumulator
of `make_score_map_3d` is updated by exactly
`new = old*(n-1)/n + update'/n`, where `n` is the running count of
(translation, rotation, query-image) evaluations and `update'` is the
back-projected intersection value with zeros replaced by the old score
(`update[update == 0] = score_cloud[update == 0]`), applied strictly in
query-image iteration order. -/
theorem C8_amended (us : List ℚ) (u : ℚ) :
    score_map_run (us ++ [u]) =
      score_map_run us * ((us.length + 1 : ℚ) - 1) / (us.length + 1) +
      (if u = 0 then score_map_run us else u) * 1 / (us.length + 1) := by
  unfold score_map_run
  rw [List.foldl_append]
  simp only [List.foldl_cons, List.foldl_nil]
  rw [score_map_run_counter]
  simp only [score_map_step, Nat.zero_add]
  push_cast
  ring_nf

/-! ## Claim C6: missing-accelerator fallback -/

/-- Claim C6 (code behavior at the failing input): when `torch_scatter` is
unavailable, `refine_sampling_coords` raises `NameError` (the
`except RuntimeError` clause does not catch it) instead of falling back;
and the `RuntimeError` fallback `argmin = torch.arange(len(img_idx))`
keeps *all* indices — for two points with the same pixel key at distances
`2 > 1` it returns `[0, 1]`, not the per-key minimum `[1]` that the
scatter path computes. -/
theorem C6_divergence :
    refine_sampling_coords .missing [(3, 3)] [1] 1 1 = .error .nameError ∧
    refine_sampling_coords .runtimeErr [(3, 3), (3, 3)] [2, 1] 1 1 = .ok [0, 1] ∧
    refine_sampling_coords .available [(3, 3), (3, 3)] [2, 1] 1 1 = .ok [1] ∧
    refine_sampling_coords .runtimeErr [(3, 3), (3, 3)] [2, 1] 1 1 ≠
      refine_sampling_coords .available [(3, 3), (3, 3)] [2, 1] 1 1 := by
  have hkey : coord_key 1 1 ((3 : ℚ), (3 : ℚ)) = 2 := by
    simp only [coord_key, clampQ, pyTruncQ]
    norm_num
  have h1 : refine_sampling_coords .runtimeErr [(3, 3), (3, 3)] [2, 1] 1 1 = .ok [0, 1] := by
    rfl
  have h2 : refine_sampling_coords .available [(3, 3), (3, 3)] [2, 1] 1 1 = .ok [1] := by
    show Except.ok ((scatter_min_argmin [2, 1]
      ([((3:ℚ), (3:ℚ)), ((3:ℚ), (3:ℚ))].map (coord_key 1 1))).filter
        (fun i => decide (i < ([((3:ℚ), (3:ℚ)), ((3:ℚ), (3:ℚ))] : List (ℚ × ℚ)).length))) = _
    have hm : [((3:ℚ), (3:ℚ)), ((3:ℚ), (3:ℚ))].map (coord_key 1 1) = [2, 2] := by
      simp [hkey]
    rw [hm]
    congr 1
  refine ⟨rfl, h1, h2, ?_⟩
  rw [h1, h2]
  intro h
  exact absurd (Except.ok.inj h) (by decide)

/-! ## Claim C5: octree adaptive depths -/

theorem min_div_two (b c : ℝ) : min (b / 2) (c / 2) = min b c / 2 := by
  rcases le_total b c with h | h
  · rw [min_eq_left (by linarith), min_eq_left h]
  · rw [min_eq_right (by linarith), min_eq_right h]

theorem sqrt_min_comm (a b : ℝ) : min (Real.sqrt a) (Real.sqrt b) = Real.sqrt (min a b) := by
  have hmono : Monotone Real.sqrt := fun x y h => Real.sqrt_le_sqrt h
  exact (Monotone.map_min hmono).symm

/-- Claim C5: for a point cloud with all-positive axis extents,
`generate_octree` sets the pre-bump adaptive maximum depth of each axis to
`ceil(nmin * sqrt(extent_axis / min_extent) - 0.2)`; the minimum-extent
axis receives exactly `nmin`; and when `2^(sum of depths) < 256`, every
axis depth is incremented by one. -/
theorem C5_octree_adaptive_depths (xyz : List (ℝ × ℝ × ℝ)) (nmin : ℕ)
    (hx : 0 < extentX xyz) (hy : 0 < extentY xyz) (hz : 0 < extentZ xyz) :
    octree_pre_depths xyz nmin =
      (⌈(nmin : ℝ) * Real.sqrt (extentX xyz / minExtent xyz) - 0.2⌉,
       ⌈(nmin : ℝ) * Real.sqrt (extentY xyz / minExtent xyz) - 0.2⌉,
       ⌈(nmin : ℝ) * Real.sqrt (extentZ xyz / minExtent xyz) - 0.2⌉) ∧
    (extentX xyz ≤ extentY xyz → extentX xyz ≤ extentZ xyz →
       (octree_pre_depths xyz nmin).1 = nmin) ∧
    (extentY xyz ≤ extentX xyz → extentY xyz ≤ extentZ xyz →
       (octree_pre_depths xyz nmin).2.1 = nmin) ∧
    (extentZ xyz ≤ extentX xyz → extentZ xyz ≤ extentY xyz →
       (octree_pre_depths xyz nmin).2.2 = nmin) ∧
    generate_octree_depths xyz nmin =
      (if (2 : ℝ) ^ ((octree_pre_depths xyz nmin).1 + (octree_pre_depths xyz nmin).2.1 +
            (octree_pre_depths xyz nmin).2.2) < 256
       then ((octree_pre_depths xyz nmin).1 + 1, (octree_pre_depths xyz nmin).2.1 + 1,
             (octree_pre_depths xyz nmin).2.2 + 1)
       else octree_pre_depths xyz nmin) := by
  have hem : 0 < minExtent xyz := by
    rw [minExtent, lt_min_iff, lt_min_iff]
    exact ⟨hx, hy, hz⟩
  have habs : ∀ mn mx : ℝ, 0 < mx - mn → |mx - (mn + mx) / 2| = (mx - mn) / 2 := by
    intro mn mx h
    have h1 : mx - (mn + mx) / 2 = (mx - mn) / 2 := by ring
    rw [h1, abs_of_nonneg (by linarith)]
  have hlx : |listMax (xyz.map fun p => p.1) -
      (listMin (xyz.map fun p => p.1) + listMax (xyz.map fun p => p.1)) / 2| =
      extentX xyz / 2 := habs _ _ hx
  have hly : |listMax (xyz.map fun p => p.2.1) -
      (listMin (xyz.map fun p => p.2.1) + listMax (xyz.map fun p => p.2.1)) / 2| =
      extentY xyz / 2 := habs _ _ hy
  have hlz : |listMax (xyz.map fun p => p.2.2) -
      (listMin (xyz.map fun p => p.2.2) + listMax (xyz.map fun p => p.2.2)) / 2| =
      extentZ xyz / 2 := habs _ _ hz
  have hm : min (Real.sqrt (extentX xyz / 2))
      (min (Real.sqrt (extentY xyz / 2)) (Real.sqrt (extentZ xyz / 2))) =
      Real.sqrt (minExtent xyz / 2) := by
    rw [sqrt_min_comm, sqrt_min_comm, min_div_two, min_div_two, minExtent]
  have hratio : ∀ a : ℝ, 0 < a →
      Real.sqrt (a / 2) / Real.sqrt (minExtent xyz / 2) = Real.sqrt (a / minExtent xyz) := by
    intro a ha
    rw [← Real.sqrt_div (by linarith : (0:ℝ) ≤ a / 2)]
    congr 1
    field_simp
  have hpre : octree_pre_depths xyz nmin =
      (⌈(nmin : ℝ) * Real.sqrt (extentX xyz / minExtent xyz) - 0.2⌉,
       ⌈(nmin : ℝ) * Real.sqrt (extentY xyz / minExtent xyz) - 0.2⌉,
       ⌈(nmin : ℝ) * Real.sqrt (extentZ xyz / minExtent xyz) - 0.2⌉) := by
    simp only [octree_pre_depths]
    rw [hlx, hly, hlz, hm, hratio _ hx, hratio _ hy, hratio _ hz]
  have hceil : ⌈(nmin : ℝ) * Real.sqrt 1 - 0.2⌉ = (nmin : ℤ) := by
    rw [Real.sqrt_one, mul_one, Int.ceil_eq_iff]
    constructor
    · push_cast
      norm_num
    · push_cast
      norm_num
  refine ⟨hpre, ?_, ?_, ?_, rfl⟩
  · intro h1 h2
    have hemx : minExtent xyz = extentX xyz := by
      rw [minExtent, min_eq_left (le_min h1 h2)]
    rw [hpre]
    show ⌈(nmin : ℝ) * Real.sqrt (extentX xyz / minExtent xyz) - 0.2⌉ = (nmin : ℤ)
    rw [hemx, div_self (ne_of_gt hx)]
    exact hceil
  · intro h1 h2
    have hemy : minExtent xyz = extentY xyz := by
      rw [minExtent, min_eq_right, min_eq_left h2]
      rw [min_eq_left h2]
      exact h1
    rw [hpre]
    show ⌈(nmin : ℝ) * Real.sqrt (extentY xyz / minExtent xyz) - 0.2⌉ = (nmin : ℤ)
    rw [hemy, div_self (ne_of_gt hy)]
    exact hceil
  · intro h1 h2
    have hemz : minExtent xyz = extentZ xyz := by
      rw [minExtent, min_eq_right, min_eq_right h2]
      rw [min_eq_right h2]
      exact h1
    rw [hpre]
    show ⌈(nmin : ℝ) * Real.sqrt (extentZ xyz / minExtent xyz) - 0.2⌉ = (nmin : ℤ)
    rw [hemz, div_self (ne_of_gt hz)]
    exact hceil

/-! ## Properties of `listIndexOf` -/

theorem listIndexOf_lt_length {α : Type} [DecidableEq α] {x : α} :
    ∀ {l : List α}, x ∈ l → listIndexOf x l < l.length
  | a :: as, h => by
      unfold listIndexOf
      by_cases hax : a = x
      · rw [if_pos hax]
        simp
      · rw [if_neg hax]
        have hx : x ∈ as := by
          rcases List.mem_cons.mp h with h1 | h1
          · exact absurd h1.symm hax
          · exact h1
        have := listIndexOf_lt_length hx
        simp only [List.length_cons]
        omega

theorem getD_listIndexOf {α : Type} [DecidableEq α] {x : α} (dflt : α) :
    ∀ {l : List α}, x ∈ l → l.getD (listIndexOf x l) dflt = x
  | a :: as, h => by
      unfold listIndexOf
      by_cases hax : a = x
      · rw [if_pos hax]
        simpa using hax
      · rw [if_neg hax]
        have hx : x ∈ as := by
          rcases List.mem_cons.mp h with h1 | h1
          · exact absurd h1.symm hax
          · exact h1
        simpa using getD_listIndexOf dflt hx

/-! ## Claim C2: nearest-wins occlusion in `make_pano` -/

theorem putAll_of_ne {n : ℕ} (pix : Fin n → ℤ × ℤ) (col : Fin n → ℝ × ℝ × ℝ)
    (ord : List (Fin n)) (img : ℤ × ℤ → ℝ × ℝ × ℝ) (q : ℤ × ℤ)
    (h : ∀ k ∈ ord, pix k ≠ q) : putAll pix col ord img q = img q := by
  induction ord generalizing img with
  | nil => rfl
  | cons a l ih =>
      show putAll pix col l (Function.update img (pix a) (col a)) q = img q
      rw [ih _ fun k hk => h k (List.mem_cons_of_mem a hk)]
      exact Function.update_noteq (fun hq => h a (List.mem_cons_self a l) hq.symm) _ img

theorem putAll_last {n : ℕ} (pix : Fin n → ℤ × ℤ) (col : Fin n → ℝ × ℝ × ℝ)
    (s t : List (Fin n)) (i : Fin n) (img : ℤ × ℤ → ℝ × ℝ × ℝ) (q : ℤ × ℤ)
    (hpi : pix i = q) (ht : ∀ k ∈ t, pix k ≠ q) :
    putAll pix col (s ++ i :: t) img q = col i := by
  unfold putAll
  rw [List.foldl_append]
  show putAll pix col (i :: t) (putAll pix col s img) q = col i
  show putAll pix col t (Function.update (putAll pix col s img) (pix i) (col i)) q = col i
  rw [putAll_of_ne _ _ _ _ _ ht, hpi, Function.update_same]

theorem modIdx_perm {n : ℕ} (xyz : Fin n → ℝ × ℝ × ℝ) :
    (modIdx xyz).Perm (List.finRange n) :=
  (List.reverse_perm _).trans (List.perm_insertionSort _ _)

theorem modIdx_nodup {n : ℕ} (xyz : Fin n → ℝ × ℝ × ℝ) : (modIdx xyz).Nodup :=
  (modIdx_perm xyz).nodup_iff.mpr (List.nodup_finRange n)

/-- `modIdx` lists the points farthest-first. -/
theorem modIdx_sorted {n : ℕ} (xyz : Fin n → ℝ × ℝ × ℝ) :
    List.Pairwise (fun a b => dist3 (xyz b) ≤ dist3 (xyz a)) (modIdx xyz) := by
  haveI : IsTotal (Fin n) (fun i j => dist3 (xyz i) ≤ dist3 (xyz j)) :=
    ⟨fun a b => le_total _ _⟩
  haveI : IsTrans (Fin n) (fun i j => dist3 (xyz i) ≤ dist3 (xyz j)) :=
    ⟨fun a b c hab hbc => le_trans hab hbc⟩
  rw [modIdx, List.pairwise_reverse]
  exact List.sorted_insertionSort _ _

/-- Claim C2: for every cloud containing a point `i` that projects to
primary pixel `q` strictly nearer to the origin than every other point
projecting to `q`, `make_pano` assigns `q` the color of `i` (scaled by
255), for every input ordering — the farthest-first paint order makes the
nearest point's primary write land last. -/
theorem C2_nearest_wins {n : ℕ} (xyz rgb : Fin n → ℝ × ℝ × ℝ) (res : ℕ × ℕ)
    (dw : Bool) (q : ℤ × ℤ) (i : Fin n)
    (hpix : pixelOf res (xyz i) = q)
    (hnear : ∀ k : Fin n, k ≠ i → pixelOf res (xyz k) = q →
      dist3 (xyz i) < dist3 (xyz k)) :
    make_pano_img xyz rgb res dw q =
      (255 * (rgb i).1, 255 * (rgb i).2.1, 255 * (rgb i).2.2) := by
  have hi_mem : i ∈ modIdx xyz := (modIdx_perm xyz).mem_iff.mpr (List.mem_finRange i)
  obtain ⟨s, t, hst⟩ := List.append_of_mem hi_mem
  have hnodup := modIdx_nodup xyz
  have hsorted := modIdx_sorted xyz
  rw [hst] at hnodup hsorted
  have hi_not_t : i ∉ t :=
    (List.nodup_cons.mp (hnodup.sublist (List.sublist_append_right s (i :: t)))).1
  have htail : ∀ k ∈ t, pixelOf res (xyz k) ≠ q := by
    intro k hk
    have hk_ne : k ≠ i := fun hki => hi_not_t (hki ▸ hk)
    have hsuffix : List.Pairwise (fun a b => dist3 (xyz b) ≤ dist3 (xyz a)) (i :: t) :=
      hsorted.sublist (List.sublist_append_right s (i :: t))
    have hle : dist3 (xyz k) ≤ dist3 (xyz i) := (List.pairwise_cons.mp hsuffix).1 k hk
    intro hpk
    exact absurd hle (not_le.mpr (hnear k hk_ne hpk))
  simp only [make_pano_img]
  have hmain : ∀ img : ℤ × ℤ → ℝ × ℝ × ℝ,
      putAll (fun k => pixelOf res (xyz k)) rgb (modIdx xyz) img q = rgb i := by
    intro img
    rw [hst]
    exact putAll_last _ rgb s t i img q hpix htail
  rw [hmain]

/-- Claim C2, witness: the two-point cloud `(0,0,1)` (red) and `(0,0,2)`
(green) projects both points to pixel `(0, 199)` at resolution 200×400;
the nearer red point wins. -/
theorem C2_witness :
    pixelOf (200, 400) (![((0:ℝ), (0:ℝ), (1:ℝ)), ((0:ℝ), (0:ℝ), (2:ℝ))] 0) = (0, 199) ∧
    (∀ k : Fin 2, k ≠ 0 →
      pixelOf (200, 400) (![((0:ℝ), (0:ℝ), (1:ℝ)), ((0:ℝ), (0:ℝ), (2:ℝ))] k) = (0, 199) →
      dist3 (![((0:ℝ), (0:ℝ), (1:ℝ)), ((0:ℝ), (0:ℝ), (2:ℝ))] 0) <
        dist3 (![((0:ℝ), (0:ℝ), (1:ℝ)), ((0:ℝ), (0:ℝ), (2:ℝ))] k)) ∧
    make_pano_img ![((0:ℝ), (0:ℝ), (1:ℝ)), ((0:ℝ), (0:ℝ), (2:ℝ))]
      ![((1:ℝ), (0:ℝ), (0:ℝ)), ((0:ℝ), (1:ℝ), (0:ℝ))] (200, 400) false (0, 199) =
      (255 * 1, 255 * 0, 255 * 0) := by
  have hc : ∀ z : ℝ, 0 < z + eps → cloud2idx (0, 0, z) = (0, -1) := by
    intro z hz
    unfold cloud2idx
    have hs : Real.sqrt ((0:ℝ) ^ 2 + 0 ^ 2) = 0 := by
      norm_num
    rw [hs]
    have ht : atan2 0 (z + eps) = 0 := by
      rw [atan2_of_pos_right hz, zero_div, Real.arctan_zero]
    have hp : atan2 (0:ℝ) (0 + eps) = 0 := by
      rw [atan2_of_pos_right (by norm_num [eps] : (0:ℝ) < 0 + eps), zero_div,
        Real.arctan_zero]
    rw [ht, hp]
    rw [Prod.mk.injEq]
    constructor
    · field_simp
      ring
    · field_simp
  have hpix : ∀ z : ℝ, 0 < z + eps → pixelOf (200, 400) (0, 0, z) = (0, 199) := by
    intro z hz
    unfold pixelOf
    rw [hc z hz]
    rw [Prod.mk.injEq]
    constructor
    · show pyTrunc ((-1 + 1) / 2 * (((200:ℕ) : ℝ) - 1)) = 0
      norm_num [pyTrunc]
    · show pyTrunc ((0 + 1) / 2 * (((400:ℕ) : ℝ) - 1)) = 199
      unfold pyTrunc
      rw [if_pos (by norm_num)]
      rw [show ((0:ℝ) + 1) / 2 * (((400:ℕ) : ℝ) - 1) = 399 / 2 by norm_num]
      rw [show (199 : ℤ) = (199 : ℤ) from rfl, Int.floor_eq_iff]
      constructor
      · norm_num
      · norm_num
  have hd1 : dist3 ((0:ℝ), (0:ℝ), (1:ℝ)) = 1 := by
    unfold dist3
    norm_num
  have hd2 : dist3 ((0:ℝ), (0:ℝ), (2:ℝ)) = 2 := by
    unfold dist3
    rw [show (0:ℝ) ^ 2 + 0 ^ 2 + 2 ^ 2 = 2 ^ 2 by norm_num]
    exact Real.sqrt_sq (by norm_num)
  have h1 : pixelOf (200, 400) (![((0:ℝ), (0:ℝ), (1:ℝ)), ((0:ℝ), (0:ℝ), (2:ℝ))] 0) =
      (0, 199) := by
    rw [show (![((0:ℝ), (0:ℝ), (1:ℝ)), ((0:ℝ), (0:ℝ), (2:ℝ))] 0) = ((0:ℝ), (0:ℝ), (1:ℝ))
      from rfl]
    exact hpix 1 (by norm_num [eps])
  have h2 : ∀ k : Fin 2, k ≠ 0 →
      pixelOf (200, 400) (![((0:ℝ), (0:ℝ), (1:ℝ)), ((0:ℝ), (0:ℝ), (2:ℝ))] k) = (0, 199) →
      dist3 (![((0:ℝ), (0:ℝ), (1:ℝ)), ((0:ℝ), (0:ℝ), (2:ℝ))] 0) <
        dist3 (![((0:ℝ), (0:ℝ), (1:ℝ)), ((0:ℝ), (0:ℝ), (2:ℝ))] k) := by
    intro k hk _
    fin_cases k
    · exact absurd rfl hk
    · show dist3 ((0:ℝ), (0:ℝ), (1:ℝ)) < dist3 ((0:ℝ), (0:ℝ), (2:ℝ))
      rw [hd1, hd2]
      norm_num
  exact ⟨h1, h2, C2_nearest_wins _ _ (200, 400) false (0, 199) 0 h1 h2⟩

/-! ## Claim C9: restoration of original point order -/

/-- The inverse-argsort composite restores original order: for any
per-point saved value `f`, indexing the distance-sorted saves by
`argsort(mod_idx)` yields the saves in original point order. -/
theorem inv_perm_restores {n : ℕ} (xyz : Fin n → ℝ × ℝ × ℝ)
    {β : Type} (f : Fin n → β) (dflt : β) :
    ((argsortN ((modIdx xyz).map Fin.val)).map fun a =>
      ((modIdx xyz).map f).getD a dflt) = (List.finRange n).map f := by
  have hlen : ((modIdx xyz).map Fin.val).length = n := by
    rw [List.length_map, (modIdx_perm xyz).length_eq, List.length_finRange]
  have hord_nodup := modIdx_nodup xyz
  have hvals_nodup : ((modIdx xyz).map Fin.val).Nodup :=
    hord_nodup.map_on fun a _ b _ hab => Fin.val_injective hab
  have hvals_get : ∀ m (hm : m < (modIdx xyz).length),
      ((modIdx xyz).map Fin.val).getD m 0 = ((modIdx xyz)[m]).val := by
    intro m hm
    rw [List.getD_eq_getElem _ _ (by rw [List.length_map]; exact hm), List.getElem_map]
  -- the candidate inverse: position of each original index in `modIdx`
  have hidx_lt : ∀ k : Fin n, listIndexOf k (modIdx xyz) < (modIdx xyz).length :=
    fun k => listIndexOf_lt_length ((modIdx_perm xyz).mem_iff.mpr (List.mem_finRange k))
  have hidx_val : ∀ k : Fin n, (modIdx xyz).getD (listIndexOf k (modIdx xyz)) k = k :=
    fun k => getD_listIndexOf k ((modIdx_perm xyz).mem_iff.mpr (List.mem_finRange k))
  have hidx_elem : ∀ k : Fin n, ∀ h : listIndexOf k (modIdx xyz) < (modIdx xyz).length,
      (modIdx xyz)[listIndexOf k (modIdx xyz)] = k := by
    intro k h
    rw [← List.getD_eq_getElem _ k h]
    exact hidx_val k
  have hC_nodup : ((List.finRange n).map fun k => listIndexOf k (modIdx xyz)).Nodup := by
    refine (List.nodup_finRange n).map_on ?_
    intro a _ b _ hab
    have h3 : (modIdx xyz).getD (listIndexOf b (modIdx xyz)) a = b := by
      rw [List.getD_eq_getElem _ _ (hidx_lt b), ← List.getD_eq_getElem _ b (hidx_lt b)]
      exact hidx_val b
    calc a = (modIdx xyz).getD (listIndexOf a (modIdx xyz)) a := (hidx_val a).symm
      _ = (modIdx xyz).getD (listIndexOf b (modIdx xyz)) a := by rw [hab]
      _ = b := h3
  have hC_subset : ((List.finRange n).map fun k => listIndexOf k (modIdx xyz)) ⊆
      List.range n := by
    intro m hm
    rw [List.mem_map] at hm
    obtain ⟨k, _, hk⟩ := hm
    rw [List.mem_range, ← hk]
    calc listIndexOf k (modIdx xyz) < (modIdx xyz).length := hidx_lt k
      _ = n := by rw [(modIdx_perm xyz).length_eq, List.length_finRange]
  have hC_perm : ((List.finRange n).map fun k => listIndexOf k (modIdx xyz)).Perm
      (List.range n) := by
    refine (List.subperm_of_subset hC_nodup hC_subset).perm_of_length_le ?_
    rw [List.length_map, List.length_finRange, List.length_range]
  have hinv_perm : (argsortN ((modIdx xyz).map Fin.val)).Perm (List.range n) := by
    rw [argsortN, hlen]
    exact List.perm_insertionSort _ _
  -- both lists are strictly sorted by the value they index in `mod_idx`
  have hR_antisymm : IsAntisymm ℕ (fun a b => a = b ∨
      ((modIdx xyz).map Fin.val).getD a 0 < ((modIdx xyz).map Fin.val).getD b 0) := by
    constructor
    intro a b hab hba
    rcases hab with h | h
    · exact h
    · rcases hba with h2 | h2
      · exact h2.symm
      · exact absurd h2 (not_lt.mpr (le_of_lt h))
  have hinv_sorted : List.Pairwise (fun a b => a = b ∨
      ((modIdx xyz).map Fin.val).getD a 0 < ((modIdx xyz).map Fin.val).getD b 0)
      (argsortN ((modIdx xyz).map Fin.val)) := by
    haveI : IsTotal ℕ (fun i j => ((modIdx xyz).map Fin.val).getD i 0 ≤
        ((modIdx xyz).map Fin.val).getD j 0) := ⟨fun a b => le_total _ _⟩
    haveI : IsTrans ℕ (fun i j => ((modIdx xyz).map Fin.val).getD i 0 ≤
        ((modIdx xyz).map Fin.val).getD j 0) := ⟨fun a b c hab hbc => le_trans hab hbc⟩
    have hle : List.Pairwise (fun i j => ((modIdx xyz).map Fin.val).getD i 0 ≤
        ((modIdx xyz).map Fin.val).getD j 0) (argsortN ((modIdx xyz).map Fin.val)) :=
      List.sorted_insertionSort _ _
    have hne : List.Pairwise (fun i j : ℕ => i ≠ j) (argsortN ((modIdx xyz).map Fin.val)) :=
      hinv_perm.nodup_iff.mpr (List.nodup_range n)
    have hmem_lt : ∀ a ∈ argsortN ((modIdx xyz).map Fin.val), a < n := by
      intro a ha
      exact List.mem_range.mp (hinv_perm.mem_iff.mp ha)
    refine (hle.and hne).imp_of_mem ?_
    intro a b ha hb hab
    right
    have halt : a < (modIdx xyz).length := by
      rw [(modIdx_perm xyz).length_eq, List.length_finRange]
      exact hmem_lt a ha
    have hblt : b < (modIdx xyz).length := by
      rw [(modIdx_perm xyz).length_eq, List.length_finRange]
      exact hmem_lt b hb
    rcases lt_or_eq_of_le hab.1 with h | h
    · exact h
    · exfalso
      apply hab.2
      rw [hvals_get a halt, hvals_get b hblt] at h
      have : (modIdx xyz)[a] = (modIdx xyz)[b] := Fin.val_injective h
      exact hord_nodup.getElem_inj_iff.mp this
  have hC_sorted : List.Pairwise (fun a b => a = b ∨
      ((modIdx xyz).map Fin.val).getD a 0 < ((modIdx xyz).map Fin.val).getD b 0)
      ((List.finRange n).map fun k => listIndexOf k (modIdx xyz)) := by
    rw [List.pairwise_map]
    have : ∀ k : Fin n, ((modIdx xyz).map Fin.val).getD (listIndexOf k (modIdx xyz)) 0 =
        (k : ℕ) := by
      intro k
      rw [hvals_get _ (hidx_lt k), hidx_elem k (hidx_lt k)]
    refine (List.pairwise_lt_finRange n).imp ?_
    intro a b hab
    right
    rw [this a, this b]
    exact hab
  have heq : argsortN ((modIdx xyz).map Fin.val) =
      (List.finRange n).map fun k => listIndexOf k (modIdx xyz) := by
    haveI := hR_antisymm
    exact List.eq_of_perm_of_sorted (hinv_perm.trans hC_perm.symm) hinv_sorted hC_sorted
  rw [heq, List.map_map]
  refine List.map_congr_left ?_
  intro k _
  show ((modIdx xyz).map f).getD (listIndexOf k (modIdx xyz)) dflt = f k
  rw [List.getD_eq_getElem _ _ (by rw [List.length_map]; exact hidx_lt k),
    List.getElem_map, hidx_elem k (hidx_lt k)]

/-- Claim C9: `make_pano` with `return_coord` (or `return_norm_coord`)
returns the per-point projected pixel (or normalized) coordinates in the
original input point order: row `k` is the coordinate input point `k`
projects to. -/
theorem C9_coords_original_order {n : ℕ} (xyz : Fin n → ℝ × ℝ × ℝ) (res : ℕ × ℕ) :
    make_pano_coords xyz res = (List.finRange n).map (fun k => pixelOf res (xyz k)) ∧
    make_pano_norm_coords xyz res = (List.finRange n).map (fun k => cloud2idx (xyz k)) :=
  ⟨inv_perm_restores xyz (fun k => pixelOf res (xyz k)) (0, 0),
   inv_perm_restores xyz (fun k => cloud2idx (xyz k)) (0, 0)⟩

/-! ## Claims C3 and C10: rotation candidate dedup -/

theorem default_triple : (default : ℝ × ℝ × ℝ) = (0, 0, 0) := rfl

theorem dedup_sorted_keys_nodup (ks : List (List (ℤ × ℤ))) :
    (dedup_sorted_keys ks).Nodup :=
  (List.perm_insertionSort _ _).nodup_iff.mpr (List.nodup_dedup ks)

theorem dedup_sorted_keys_subset (ks : List (List (ℤ × ℤ))) (k : List (ℤ × ℤ))
    (hk : k ∈ dedup_sorted_keys ks) : k ∈ ks :=
  List.dedup_subset ks ((List.perm_insertionSort _ _).mem_iff.mp hk)

/-- Mapping the dedup key over `dedupedRots` recovers exactly the sorted
distinct keys: each kept representative is the first candidate carrying
its key. -/
theorem dedupedRots_map_key (d : RotInit) :
    (dedupedRots d).map (fun ypr => grid_key ypr d.num_yaw d.num_pitch) =
      dedup_sorted_keys ((rot_candidates d).map fun ypr =>
        grid_key ypr d.num_yaw d.num_pitch) := by
  unfold dedupedRots
  rw [List.map_map, List.map_map]
  have h : ∀ k ∈ dedup_sorted_keys ((rot_candidates d).map fun ypr =>
      grid_key ypr d.num_yaw d.num_pitch),
      ((fun ypr => grid_key ypr d.num_yaw d.num_pitch) ∘
        (fun idx => (rot_candidates d).getD idx (0, 0, 0)) ∘
        (fun k => listIndexOf k ((rot_candidates d).map fun ypr =>
          grid_key ypr d.num_yaw d.num_pitch))) k = k := by
    intro k hk
    have hkmem : k ∈ (rot_candidates d).map fun ypr =>
        grid_key ypr d.num_yaw d.num_pitch := dedup_sorted_keys_subset _ k hk
    have hlt : listIndexOf k ((rot_candidates d).map fun ypr =>
        grid_key ypr d.num_yaw d.num_pitch) <
        ((rot_candidates d).map fun ypr => grid_key ypr d.num_yaw d.num_pitch).length :=
      listIndexOf_lt_length hkmem
    have hlt2 : listIndexOf k ((rot_candidates d).map fun ypr =>
        grid_key ypr d.num_yaw d.num_pitch) < (rot_candidates d).length := by
      rw [← List.length_map (rot_candidates d) fun ypr =>
        grid_key ypr d.num_yaw d.num_pitch]
      exact hlt
    show grid_key ((rot_candidates d).getD _ (0, 0, 0)) d.num_yaw d.num_pitch = k
    rw [List.getD_eq_getElem _ _ hlt2]
    have h1 : grid_key ((rot_candidates d)[listIndexOf k
        ((rot_candidates d).map fun ypr => grid_key ypr d.num_yaw d.num_pitch)])
        d.num_yaw d.num_pitch =
        ((rot_candidates d).map fun ypr => grid_key ypr d.num_yaw d.num_pitch)[
          listIndexOf k ((rot_candidates d).map fun ypr =>
            grid_key ypr d.num_yaw d.num_pitch)] := by
      rw [List.getElem_map]
    rw [h1, ← List.getD_eq_getElem _ k hlt, getD_listIndexOf k hkmem]
  calc (dedup_sorted_keys ((rot_candidates d).map fun ypr =>
          grid_key ypr d.num_yaw d.num_pitch)).map _
      = (dedup_sorted_keys ((rot_candidates d).map fun ypr =>
          grid_key ypr d.num_yaw d.num_pitch)).map id := List.map_congr_left h
    _ = _ := List.map_id _

theorem swapList_length {α : Type} [Inhabited α] (l : List α) (a b : ℕ) :
    (swapList l a b).length = l.length := by
  simp [swapList]

theorem swapList_getD {α : Type} [Inhabited α] (l : List α) (a b i : ℕ)
    (ha : a < l.length) (hb : b < l.length) :
    (swapList l a b).getD i default =
      l.getD (if i = b then a else if i = a then b else i) default := by
  by_cases hi : i < l.length
  · rw [List.getD_eq_getElem _ _ (by rw [swapList_length]; exact hi)]
    simp only [swapList, List.getElem_set]
    by_cases h1 : b = i
    · rw [if_pos h1, if_pos h1.symm]
    · rw [if_neg h1, if_neg (fun hh : i = b => h1 hh.symm)]
      by_cases h2 : a = i
      · rw [if_pos h2, if_pos h2.symm]
      · rw [if_neg h2, if_neg (fun hh : i = a => h2 hh.symm),
          List.getD_eq_getElem _ _ hi]
  · have hi' : l.length ≤ i := le_of_not_lt hi
    rw [List.getD_eq_default _ _ (by rw [swapList_length]; exact hi')]
    have heq : (if i = b then a else if i = a then b else i) = i := by
      rw [if_neg (by omega), if_neg (by omega)]
    rw [heq, List.getD_eq_default _ _ hi']

/-- Inversion of the 3-DoF branch of `generate_rot_points`: a successful
call found exactly one zero-sum index `z` and returned the deduplicated
array with rows `0` and `z` swapped. -/
theorem generate_rot_points_ok_inv (d : RotInit) (hyaw : d.yaw_only = false)
    (out : List (ℝ × ℝ × ℝ)) (hok : generate_rot_points d = Except.ok out) :
    ∃ z, z < (dedupedRots d).length ∧
      (List.range (dedupedRots d).length).filter (fun i =>
        decide (((dedupedRots d).getD i (0, 0, 0)).1 +
          ((dedupedRots d).getD i (0, 0, 0)).2.1 +
          ((dedupedRots d).getD i (0, 0, 0)).2.2 = 0)) = [z] ∧
      out = swapList (dedupedRots d) 0 z := by
  unfold generate_rot_points at hok
  rw [if_neg (by rw [hyaw]; exact Bool.false_ne_true)] at hok
  rcases hzs : (List.range (dedupedRots d).length).filter (fun i =>
      decide (((dedupedRots d).getD i (0, 0, 0)).1 +
        ((dedupedRots d).getD i (0, 0, 0)).2.1 +
        ((dedupedRots d).getD i (0, 0, 0)).2.2 = 0)) with _ | ⟨z, rest⟩
  · rw [hzs] at hok
    exact absurd hok (by simp)
  · rcases rest with _ | ⟨w, rest2⟩
    · rw [hzs] at hok
      refine ⟨z, ?_, rfl, ?_⟩
      · have : z ∈ (List.range (dedupedRots d).length).filter (fun i =>
            decide (((dedupedRots d).getD i (0, 0, 0)).1 +
              ((dedupedRots d).getD i (0, 0, 0)).2.1 +
              ((dedupedRots d).getD i (0, 0, 0)).2.2 = 0)) := by
          rw [hzs]; exact List.mem_singleton_self z
        exact List.mem_range.mp (List.mem_filter.mp this).1
      · exact (Except.ok.inj hok).symm
    · rw [hzs] at hok
      exact absurd hok (by simp)

/-- Claim C3: for every 3-DoF rotation configuration,
`generate_rot_points` is deterministic; no two rotations in a successfully
returned sequence produce sampling grids that are equal after rounding to
3 decimal places; and the identity rotation `(0,0,0)`, when present in the
returned candidates, sits at index 0. -/
theorem C3_rot_dedup (d : RotInit) :
    generate_rot_points d = generate_rot_points d ∧
    (∀ out, d.yaw_only = false → generate_rot_points d = Except.ok out →
      ∀ i j, i < out.length → j < out.length → i ≠ j →
        grid_key (out.getD i (0, 0, 0)) d.num_yaw d.num_pitch ≠
          grid_key (out.getD j (0, 0, 0)) d.num_yaw d.num_pitch) ∧
    (∀ out, d.yaw_only = false → generate_rot_points d = Except.ok out →
      (0, 0, 0) ∈ out → out.getD 0 (0, 0, 0) = (0, 0, 0)) := by
  have hkeymap := dedupedRots_map_key d
  have hnodup := dedup_sorted_keys_nodup ((rot_candidates d).map fun ypr =>
    grid_key ypr d.num_yaw d.num_pitch)
  have hdslen : (dedup_sorted_keys ((rot_candidates d).map fun ypr =>
      grid_key ypr d.num_yaw d.num_pitch)).length = (dedupedRots d).length := by
    rw [← hkeymap, List.length_map]
  have hkey_at : ∀ m (hm : m < (dedupedRots d).length)
      (hm2 : m < (dedup_sorted_keys ((rot_candidates d).map fun ypr =>
        grid_key ypr d.num_yaw d.num_pitch)).length),
      grid_key ((dedupedRots d).getD m (0, 0, 0)) d.num_yaw d.num_pitch =
        (dedup_sorted_keys ((rot_candidates d).map fun ypr =>
          grid_key ypr d.num_yaw d.num_pitch))[m] := by
    intro m hm hm2
    rw [List.getD_eq_getElem _ _ hm]
    have hmm : m < ((dedupedRots d).map fun ypr =>
        grid_key ypr d.num_yaw d.num_pitch).length := by
      rw [List.length_map]; exact hm
    have h1 : grid_key ((dedupedRots d)[m]) d.num_yaw d.num_pitch =
        ((dedupedRots d).map fun ypr => grid_key ypr d.num_yaw d.num_pitch)[m] := by
      rw [List.getElem_map]
    rw [h1]
    exact List.getElem_of_eq hkeymap _
  refine ⟨rfl, ?_, ?_⟩
  · intro out hyaw hok i j hi hj hij
    obtain ⟨z, hzlen, hzs, hout⟩ := generate_rot_points_ok_inv d hyaw out hok
    have h0len : 0 < (dedupedRots d).length := lt_of_le_of_lt (Nat.zero_le z) hzlen
    have hlen_out : out.length = (dedupedRots d).length := by
      rw [hout, swapList_length]
    have hget : ∀ m, out.getD m (0, 0, 0) = (dedupedRots d).getD
        (if m = z then 0 else if m = 0 then z else m) (0, 0, 0) := by
      intro m
      rw [hout]
      have := swapList_getD (dedupedRots d) 0 z m h0len hzlen
      rw [default_triple] at this
      exact this
    have hmapi : (if i = z then 0 else if i = 0 then z else i) <
        (dedupedRots d).length := by
      split_ifs <;> omega
    have hmapj : (if j = z then 0 else if j = 0 then z else j) <
        (dedupedRots d).length := by
      split_ifs <;> omega
    have hne : (if i = z then 0 else if i = 0 then z else i) ≠
        (if j = z then 0 else if j = 0 then z else j) := by
      split_ifs <;> omega
    have hmapi2 : (if i = z then 0 else if i = 0 then z else i) <
        (dedup_sorted_keys ((rot_candidates d).map fun ypr =>
          grid_key ypr d.num_yaw d.num_pitch)).length := by
      rw [hdslen]; exact hmapi
    have hmapj2 : (if j = z then 0 else if j = 0 then z else j) <
        (dedup_sorted_keys ((rot_candidates d).map fun ypr =>
          grid_key ypr d.num_yaw d.num_pitch)).length := by
      rw [hdslen]; exact hmapj
    rw [hget i, hget j, hkey_at _ hmapi hmapi2, hkey_at _ hmapj hmapj2]
    intro hcontra
    exact hne (hnodup.getElem_inj_iff.mp hcontra)
  · intro out hyaw hok hmem
    obtain ⟨z, hzlen, hzs, hout⟩ := generate_rot_points_ok_inv d hyaw out hok
    have h0len : 0 < (dedupedRots d).length := lt_of_le_of_lt (Nat.zero_le z) hzlen
    have hget : ∀ m, out.getD m (0, 0, 0) = (dedupedRots d).getD
        (if m = z then 0 else if m = 0 then z else m) (0, 0, 0) := by
      intro m
      rw [hout]
      have := swapList_getD (dedupedRots d) 0 z m h0len hzlen
      rw [default_triple] at this
      exact this
    obtain ⟨i, hilen, hival⟩ := List.mem_iff_getElem.mp hmem
    have hival2 : out.getD i (0, 0, 0) = (0, 0, 0) := by
      rw [List.getD_eq_getElem _ _ hilen, hival]
    have hm : (if i = z then 0 else if i = 0 then z else i) <
        (dedupedRots d).length := by
      have hilen2 : i < (dedupedRots d).length := by
        have := hilen
        rw [hout, swapList_length] at this
        exact this
      split_ifs <;> omega
    have hmval : (dedupedRots d).getD
        (if i = z then 0 else if i = 0 then z else i) (0, 0, 0) = (0, 0, 0) := by
      rw [← hget i]
      exact hival2
    have hmzs : (if i = z then 0 else if i = 0 then z else i) ∈
        (List.range (dedupedRots d).length).filter (fun k =>
          decide (((dedupedRots d).getD k (0, 0, 0)).1 +
            ((dedupedRots d).getD k (0, 0, 0)).2.1 +
            ((dedupedRots d).getD k (0, 0, 0)).2.2 = 0)) := by
      rw [List.mem_filter]
      refine ⟨List.mem_range.mpr hm, ?_⟩
      rw [hmval]
      norm_num
    rw [hzs, List.mem_singleton] at hmzs
    have hfinal : out.getD 0 (0, 0, 0) = (dedupedRots d).getD z (0, 0, 0) := by
      rw [hget 0]
      by_cases h0z : (0 : ℕ) = z
      · rw [if_pos h0z, ← h0z]
      · rw [if_neg h0z, if_pos rfl]
    rw [hfinal, ← hmzs, hmval]

/-- Claim C10: in 3-DoF mode, whenever no deduplicated rotation candidate
has components summing to exactly zero, `generate_rot_points` raises
(`torch.where(...)[0].item()` on an empty index tensor). -/
theorem C10_missing_identity_raises (d : RotInit) (hyaw : d.yaw_only = false)
    (hz : ∀ r ∈ dedupedRots d, r.1 + r.2.1 + r.2.2 ≠ 0) :
    generate_rot_points d = Except.error PyErr.itemError := by
  unfold generate_rot_points
  rw [if_neg (by rw [hyaw]; exact Bool.false_ne_true)]
  have hfil : (List.range (dedupedRots d).length).filter (fun i =>
      decide (((dedupedRots d).getD i (0, 0, 0)).1 +
        ((dedupedRots d).getD i (0, 0, 0)).2.1 +
        ((dedupedRots d).getD i (0, 0, 0)).2.2 = 0)) = [] := by
    rw [List.filter_eq_nil_iff]
    intro i hi
    have hilt : i < (dedupedRots d).length := List.mem_range.mp hi
    rw [List.getD_eq_getElem _ _ hilt]
    simp only [decide_eq_true_eq]
    exact hz _ (List.getElem_mem hilt)
  rw [hfil]

/-- With a 1×1×1 rotation grid there is a single candidate
`(min_yaw, min_pitch, min_roll)`. -/
theorem rot_candidates_one (d : RotInit) (h1 : d.num_yaw = 1) (h2 : d.num_pitch = 1)
    (h3 : d.num_roll = 1) :
    rot_candidates d = [(d.min_yaw, d.min_pitch, d.min_roll)] := by
  unfold rot_candidates
  rw [h1, h2, h3, show List.range 1 = [0] from rfl]
  simp

/-- Deduplicating a single candidate keeps it, whatever its grid key is. -/
theorem dedupedRots_one (d : RotInit) (h1 : d.num_yaw = 1) (h2 : d.num_pitch = 1)
    (h3 : d.num_roll = 1) :
    dedupedRots d = [(d.min_yaw, d.min_pitch, d.min_roll)] := by
  have hc := rot_candidates_one d h1 h2 h3
  simp only [dedupedRots, hc, List.map_cons, List.map_nil]
  rw [show dedup_sorted_keys [grid_key (d.min_yaw, d.min_pitch, d.min_roll)
      d.num_yaw d.num_pitch] =
      [grid_key (d.min_yaw, d.min_pitch, d.min_roll) d.num_yaw d.num_pitch] by
    unfold dedup_sorted_keys
    rw [List.dedup_cons_of_not_mem (List.not_mem_nil _), List.dedup_nil]
    rfl]
  rw [List.map_cons, List.map_nil]
  unfold listIndexOf
  rw [if_pos rfl]
  rfl

/-- Claim C3, witness: the 3-DoF configuration with a 1×1×1 grid and all
ranges `[0, 0]` generates exactly the identity rotation, which the call
returns at index 0. -/
theorem C3_witness :
    generate_rot_points (⟨false, 1, 1, 1, 0, 0, 0, 0, 0, 0⟩ : RotInit) =
      Except.ok [((0 : ℝ), (0 : ℝ), (0 : ℝ))] ∧
    ((0 : ℝ), (0 : ℝ), (0 : ℝ)) ∈ [((0 : ℝ), (0 : ℝ), (0 : ℝ))] ∧
    ([((0 : ℝ), (0 : ℝ), (0 : ℝ))] : List (ℝ × ℝ × ℝ)).getD 0 (0, 0, 0) = (0, 0, 0) := by
  have hded : dedupedRots (⟨false, 1, 1, 1, 0, 0, 0, 0, 0, 0⟩ : RotInit) =
      [((0 : ℝ), (0 : ℝ), (0 : ℝ))] :=
    dedupedRots_one _ rfl rfl rfl
  have hok : generate_rot_points (⟨false, 1, 1, 1, 0, 0, 0, 0, 0, 0⟩ : RotInit) =
      Except.ok [((0 : ℝ), (0 : ℝ), (0 : ℝ))] := by
    unfold generate_rot_points
    rw [if_neg (by exact Bool.false_ne_true)]
    rw [hded]
    have hfil : (List.range ([((0 : ℝ), (0 : ℝ), (0 : ℝ))] :
        List (ℝ × ℝ × ℝ)).length).filter (fun i =>
        decide ((([((0 : ℝ), (0 : ℝ), (0 : ℝ))] :
          List (ℝ × ℝ × ℝ)).getD i (0, 0, 0)).1 +
          (([((0 : ℝ), (0 : ℝ), (0 : ℝ))] : List (ℝ × ℝ × ℝ)).getD i (0, 0, 0)).2.1 +
          (([((0 : ℝ), (0 : ℝ), (0 : ℝ))] : List (ℝ × ℝ × ℝ)).getD i (0, 0, 0)).2.2 = 0))
        = [0] := by
      rw [show (List.range ([((0 : ℝ), (0 : ℝ), (0 : ℝ))] :
        List (ℝ × ℝ × ℝ)).length) = [0] from rfl]
      rw [List.filter_cons, List.filter_nil]
      rw [if_pos (by norm_num)]
    rw [hfil]
    show Except.ok (swapList [((0 : ℝ), (0 : ℝ), (0 : ℝ))] 0 0) = _
    rw [show swapList [((0 : ℝ), (0 : ℝ), (0 : ℝ))] 0 0 =
      [((0 : ℝ), (0 : ℝ), (0 : ℝ))] by simp [swapList]]
  refine ⟨hok, List.mem_singleton_self _, ?_⟩
  exact (C3_rot_dedup (⟨false, 1, 1, 1, 0, 0, 0, 0, 0, 0⟩ : RotInit)).2.2
    [((0 : ℝ), (0 : ℝ), (0 : ℝ))] rfl hok (List.mem_singleton_self _)

/-- Claim C10, witness: with a 1×1×1 grid and all angle ranges `[1, 1]`
the single deduplicated candidate is `(1, 1, 1)`, whose components sum to
`3 ≠ 0`, and the call raises. -/
theorem C10_witness :
    (∀ r ∈ dedupedRots (⟨false, 1, 1, 1, 1, 1, 1, 1, 1, 1⟩ : RotInit),
      r.1 + r.2.1 + r.2.2 ≠ 0) ∧
    generate_rot_points (⟨false, 1, 1, 1, 1, 1, 1, 1, 1, 1⟩ : RotInit) =
      Except.error PyErr.itemError := by
  have hded : dedupedRots (⟨false, 1, 1, 1, 1, 1, 1, 1, 1, 1⟩ : RotInit) =
      [((1 : ℝ), (1 : ℝ), (1 : ℝ))] :=
    dedupedRots_one _ rfl rfl rfl
  have hz : ∀ r ∈ dedupedRots (⟨false, 1, 1, 1, 1, 1, 1, 1, 1, 1⟩ : RotInit),
      r.1 + r.2.1 + r.2.2 ≠ 0 := by
    rw [hded]
    intro r hr
    rw [List.mem_singleton] at hr
    rw [hr]
    norm_num
  exact ⟨hz, C10_missing_identity_raises _ rfl hz⟩

/-- Claim C5, witness at the concrete two-point cloud
`[(0,0,0), (1,2,4)]` with `nmin = 2`: extents `(1, 2, 4)` are positive and
the minimum-extent axis (x) receives depth exactly `2`. -/
theorem C5_witness :
    (0 < extentX [((0:ℝ), (0:ℝ), (0:ℝ)), (1, 2, 4)]) ∧
    (0 < extentY [((0:ℝ), (0:ℝ), (0:ℝ)), (1, 2, 4)]) ∧
    (0 < extentZ [((0:ℝ), (0:ℝ), (0:ℝ)), (1, 2, 4)]) ∧
    (octree_pre_depths [((0:ℝ), (0:ℝ), (0:ℝ)), (1, 2, 4)] 2).1 = 2 := by
  have hx : extentX [((0:ℝ), (0:ℝ), (0:ℝ)), (1, 2, 4)] = 1 := by
    simp [extentX, listMax, listMin]
  have hy : extentY [((0:ℝ), (0:ℝ), (0:ℝ)), (1, 2, 4)] = 2 := by
    simp [extentY, listMax, listMin]
  have hz : extentZ [((0:ℝ), (0:ℝ), (0:ℝ)), (1, 2, 4)] = 4 := by
    simp [extentZ, listMax, listMin]
  have h1 : (0:ℝ) < 1 := by norm_num
  refine ⟨by rw [hx]; norm_num, by rw [hy]; norm_num, by rw [hz]; norm_num, ?_⟩
  exact (C5_octree_adaptive_depths [((0:ℝ), (0:ℝ), (0:ℝ)), (1, 2, 4)] 2
    (by rw [hx]; norm_num) (by rw [hy]; norm_num) (by rw [hz]; norm_num)).2.1
    (by rw [hx, hy]; norm_num) (by rw [hx, hz]; norm_num)

end PanoLoc
